import Mathlib

/-!
# LVM1 metadata import (`lib/format1/format1.c`)

A shallow embedding of the functions of `format1.c` that assemble a volume
group from the per-PV disk records, and the properties of them that the
specification states.

Conventions of the embedding

* C lists (`struct list_head`) are Lean lists; a list head of a zeroed
  structure is read as the empty list.
* A `NULL` result is `none`; a function returning `0`/`1` returns `none`/`some`
  with the state it leaves behind.
* Pointers to physical and logical volumes are natural numbers (handles); the
  handle of a logical volume is its position in `vg.lvs`.
* `lv->map` is the memory at the address `pool_alloc` returned, seen as an array
  of `pe_specifier`: a function from slot index to content.  The slots below
  `le_count` are the block that was asked for, the ones from `le_count` on are
  whatever lies behind it.  The C code indexes this array without comparing
  the index to `le_count`, so the embedding keeps every slot observable.
* The declarations of `disk-rep.h`, `pool.h`, `list.h` are not among the
  sources.  Structures carry the fields the code names.  The pool, `_find_pv`
  and `_find_lv_num` are parameters.
* On-disk counters are unsigned 32 bit values, held as `Nat`; the one place
  where the code subtracts them wraps modulo `2 ^ 32`.
-/

set_option autoImplicit false

namespace Format1

/-! ## Disk records (`disk-rep.h`, fields as named in `format1.c`) -/

/-- Modelled from the spec: `ID_LEN` is declared outside the sources; the spec
only says that identifiers have a fixed length.  Nothing below depends on the
value. -/
def ID_LEN : Nat := 32

/-- One entry of the extent table of a PV: `lv_num = 0` means free. -/
structure pe_disk where
  lv_num : Nat
  le_num : Nat
deriving DecidableEq, Repr

/-- The VG descriptor a PV carries.  `other` stands for the bytes of the
fields `format1.c` does not name; `memcmp` over the structure compares them
too. -/
structure vg_disk where
  vg_uuid : List Nat
  vg_status : Nat
  vg_access : Nat
  pe_size : Nat
  pe_total : Nat
  pe_allocated : Nat
  lv_max : Nat
  pv_max : Nat
  other : List Nat
deriving DecidableEq, Repr

/-- The PV descriptor.  `format1.c` reads both `pe_count` (in `_import_pvs`)
and `pe_total` (in `_import_extents`); both are kept.  `pe_size` is the extent
size of the descriptor, which `format1.c` never reads. -/
structure pv_disk where
  pv_uuid : List Nat
  pv_name : String
  vg_name : String
  pv_status : Nat
  pv_size : Nat
  pe_size : Nat
  pe_start : Nat
  pe_count : Nat
  pe_total : Nat
  pe_allocated : Nat
deriving DecidableEq, Repr

/-- An LV descriptor.  `_find_lv` is called with `lvd->lvname` and `_add_lv`
copies `lvd->lv_name`: one field here. -/
structure lv_disk where
  lv_name : String
  lv_access : Nat
  lv_status : Nat
  lv_open : Nat
  lv_size : Nat
  lv_allocated_lv : Nat
deriving DecidableEq, Repr

/-- The record read from one PV (`struct disk_list`).

Modelled from the spec: `dev` and `exported` stand for the two values
`_import_pvs` assigns from the placeholder `??`; the spec has them carried
opaquely with the disk record. -/
structure disk_list where
  vg : vg_disk
  pv : pv_disk
  lvs : List lv_disk
  extents : List pe_disk
  dev : Nat
  exported : Nat
deriving DecidableEq, Repr

/-! ## In-memory metadata (`metadata.h`, fields as named in `format1.c`) -/

/-- One slot of an extent map: `pv = none` is the null pointer, the
unresolved value. -/
structure pe_specifier where
  pv : Option Nat
  pe : Nat
deriving DecidableEq, Repr

structure physical_volume where
  id : List Nat
  dev : Nat
  vg_name : String
  exported : Nat
  status : Nat
  size : Nat
  pe_size : Nat
  pe_start : Nat
  pe_count : Nat
  pe_allocated : Nat
deriving DecidableEq, Repr

/-- A logical volume; `opened` is the C field `open`. -/
structure logical_volume where
  id : List Nat
  name : String
  access : Nat
  status : Nat
  opened : Nat
  size : Nat
  le_count : Nat
  map : Nat → pe_specifier

structure volume_group where
  id : List Nat
  name : Option String
  status : Nat
  access : Nat
  extent_size : Nat
  extent_count : Nat
  free_count : Nat
  max_lv : Nat
  max_pv : Nat
  pv_count : Nat
  pvs : List physical_volume
  lvs : List logical_volume

/-- The result of `memset(vg, 0, sizeof(*vg))`. -/
def zero_vg : volume_group :=
  { id := List.replicate ID_LEN 0, name := none, status := 0, access := 0,
    extent_size := 0, extent_count := 0, free_count := 0, max_lv := 0,
    max_pv := 0, pv_count := 0, pvs := [], lvs := [] }

/-! ## The pool (`pool.h`), a parameter

`answers` lists what the next requests get (`true`: memory is handed out;
`false`, or no answer left: `NULL`).  The size asked for plays no part, so
that every pattern of refusals is covered.  Memory handed out is not cleared
(`_build_vg` and `_add_lv` call `memset` on what they want zero): `stale_pe`
is what it holds read as `pe_specifier` slots, `stale` what it holds read as a
counter. -/

structure pool where
  answers : List Bool
  stale_pe : Nat → pe_specifier
  stale : Nat

/-- The call `pool_alloc(mem, size)`: the pool after the request, `none` for `NULL`. -/
def pool_alloc (mem : pool) : Option pool :=
  match mem.answers with
  | true :: rest => some { mem with answers := rest }
  | _ => none

/-- The calls `pool_strdup` and `pool_dupstr`: a copy of the string from pool memory. -/
def pool_strdup (mem : pool) (s : String) : Option (String × pool) :=
  match pool_alloc mem with
  | some mem1 => some (s, mem1)
  | none => none

/-! ## `_import_vg` -/

/-- The fields `_import_vg` copies from the first descriptor. -/
def fill_vg (vg : volume_group) (first : vg_disk) : volume_group :=
  { vg with
    id := first.vg_uuid.take ID_LEN
    name := none
    status := first.vg_status
    access := first.vg_access
    extent_size := first.pe_size
    extent_count := first.pe_total
    free_count := (first.pe_total + 2 ^ 32 - first.pe_allocated) % 2 ^ 32
    max_lv := first.lv_max
    max_pv := first.pv_max }

/-- The loop of `_import_vg`; the first argument is the local `first`. -/
def import_vg_loop : Option vg_disk → volume_group → List disk_list → Option volume_group
  | _, vg, [] => some vg
  | none, vg, dl :: rest => import_vg_loop (some dl.vg) (fill_vg vg dl.vg) rest
  | some first, vg, dl :: rest =>
    if first ≠ dl.vg then none else import_vg_loop (some first) vg rest

def _import_vg (vg : volume_group) (pvs : List disk_list) : Option volume_group :=
  import_vg_loop none vg pvs

/-! ## `_import_pvs` -/

/-- One round of the loop of `_import_pvs`.  The lines
`pe_start = ...; pe_count = ...; pe_allocated = ...;` assign names that are not
fields of `pv`: those three fields keep what the pool memory held.
`list_add` links the new element right behind the head. -/
def import_pv (mem : pool) (vg : volume_group) (dl : disk_list) :
    Option (volume_group × pool) :=
  match pool_alloc mem with
  | none => none
  | some mem1 =>
    match pool_strdup mem1 dl.pv.vg_name with
    | none => none
    | some (vg_name, mem2) =>
      let pv : physical_volume :=
        { id := dl.pv.pv_uuid.take ID_LEN
          dev := dl.dev
          vg_name := vg_name
          exported := dl.exported
          status := dl.pv.pv_status
          size := dl.pv.pv_size
          pe_size := dl.pv.pv_size
          pe_start := mem.stale
          pe_count := mem.stale
          pe_allocated := mem.stale }
      some ({ vg with pvs := pv :: vg.pvs, pv_count := vg.pv_count + 1 }, mem2)

def import_pvs_loop : pool → volume_group → List disk_list → Option (volume_group × pool)
  | mem, vg, [] => some (vg, mem)
  | mem, vg, dl :: rest =>
    match import_pv mem vg dl with
    | none => none
    | some (vg1, mem1) => import_pvs_loop mem1 vg1 rest

def _import_pvs (mem : pool) (vg : volume_group) (pvs : List disk_list) :
    Option (volume_group × pool) :=
  import_pvs_loop mem { vg with pv_count := 0 } pvs

/-! ## `_find_lv`, `_add_lv`, `_import_lvs` -/

def _find_lv (vg : volume_group) (name : String) : Option logical_volume :=
  vg.lvs.find? (fun lv => name == lv.name)

/-- The function `_add_lv`.  In C it returns the constant `1` on success and
stores the address of the new logical volume nowhere (no `list_add`, `vg` is
not written): the embedding hands the object back so that it can be looked
at, and the pool after the three requests.  The map is the block as the pool
hands it out; nothing is written to it here. -/
def _add_lv (mem : pool) (_vg : volume_group) (lvd : lv_disk) :
    Option (logical_volume × pool) :=
  match pool_alloc mem with
  | none => none
  | some mem1 =>
    match pool_strdup mem1 lvd.lv_name with
    | none => none
    | some (name, mem2) =>
      match pool_alloc mem2 with
      | none => none
      | some mem3 =>
        some ({ id := List.replicate ID_LEN 0
                name := name
                access := lvd.lv_access
                status := lvd.lv_status
                opened := lvd.lv_open
                size := lvd.lv_size
                le_count := lvd.lv_allocated_lv
                map := mem.stale_pe }, mem3)

/-- The inner loop of `_import_lvs`, over the LV descriptors of one record. -/
def import_lvds : pool → volume_group → List lv_disk → Option (volume_group × pool)
  | mem, vg, [] => some (vg, mem)
  | mem, vg, lvd :: rest =>
    match _find_lv vg lvd.lv_name with
    | some _ => import_lvds mem vg rest
    | none =>
      match _add_lv mem vg lvd with
      | none => none
      | some (_, mem1) => import_lvds mem1 vg rest

def _import_lvs : pool → volume_group → List disk_list → Option (volume_group × pool)
  | mem, vg, [] => some (vg, mem)
  | mem, vg, dl :: rest =>
    match import_lvds mem vg dl.lvs with
    | none => none
    | some (vg1, mem1) => _import_lvs mem1 vg1 rest

/-! ## `_import_extents`

`_find_pv` and `_find_lv_num` are not defined in the sources: they are the
parameters `find_pv` and `find_lv_num`.  Both get the volume group, as in C, and
answer with a handle or `none` for `NULL`. -/

/-- The two stores `lv->map[le].pv = pv; lv->map[le].pe = i;` through the
pointer `lv`, on the list of logical volumes (`k` is the handle of `lv`).  No
index is compared to `le_count`.  A handle that names no logical volume of the
list changes nothing in it. -/
def lvs_store : List logical_volume → Nat → Nat → pe_specifier → List logical_volume
  | [], _, _, _ => []
  | lv :: rest, 0, le, x => { lv with map := Function.update lv.map le x } :: rest
  | lv :: rest, k + 1, le, x => lv :: lvs_store rest k le x

def store (vg : volume_group) (k le : Nat) (x : pe_specifier) : volume_group :=
  { vg with lvs := lvs_store vg.lvs k le x }

/-- The table element `e[i]` of a record; behind the end of the table the
embedding reads a free entry. -/
def entry (dl : disk_list) (i : Nat) : pe_disk :=
  dl.extents.getD i ⟨0, 0⟩

/-- The body of the `for` loop of `_import_extents` run over the indices
given (the loop runs it over `0, ..., pe_total - 1`). -/
def import_pes (find_lv_num : volume_group → Nat → Option Nat) (pv : Option Nat)
    (dl : disk_list) : List Nat → volume_group → Option volume_group
  | [], vg => some vg
  | i :: rest, vg =>
    if (entry dl i).lv_num ≠ 0 then
      match find_lv_num vg (entry dl i).lv_num with
      | none => none
      | some k =>
        import_pes find_lv_num pv dl rest (store vg k (entry dl i).le_num ⟨pv, i⟩)
    else import_pes find_lv_num pv dl rest vg

def _import_extents (find_pv : volume_group → String → Option Nat)
    (find_lv_num : volume_group → Nat → Option Nat) :
    volume_group → List disk_list → Option volume_group
  | vg, [] => some vg
  | vg, dl :: rest =>
    match import_pes find_lv_num (find_pv vg dl.pv.pv_name) dl
        (List.range dl.pv.pe_total) vg with
    | none => none
    | some vg1 => _import_extents find_pv find_lv_num vg1 rest

/-! ## `_build_vg` -/

/-- The function `_build_vg`: the volume group it returns and the pool
afterwards, `none` for `NULL`.  It runs `_import_vg`, `_import_pvs` and
`_import_lvs`; there is no call of `_import_extents`. -/
def _build_vg (mem : pool) (pvs : List disk_list) : Option (volume_group × pool) :=
  match pool_alloc mem with
  | none => none
  | some mem1 =>
    match _import_vg zero_vg pvs with
    | none => none
    | some vg1 =>
      match _import_pvs mem1 vg1 pvs with
      | none => none
      | some (vg2, mem2) =>
        match _import_lvs mem2 vg2 pvs with
        | none => none
        | some (vg3, mem3) => some (vg3, mem3)

/-! ## The stores of `_import_extents`, in the order of the scan -/

/-- One store into an extent map: handle of the logical volume, slot, content. -/
structure pe_write where
  k : Nat
  le : Nat
  x : pe_specifier
deriving DecidableEq, Repr

def apply_write (vg : volume_group) (w : pe_write) : volume_group :=
  store vg w.k w.le w.x

/-- The stores that the owned entries at the indices given ask for, when the
lookup `g` resolves the LV numbers; entries that do not resolve ask for none. -/
def pes_writes (g : Nat → Option Nat) (pv : Option Nat) (dl : disk_list)
    (is : List Nat) : List pe_write :=
  is.filterMap (fun i =>
    if (entry dl i).lv_num ≠ 0 then
      (g (entry dl i).lv_num).map (fun k => ⟨k, (entry dl i).le_num, ⟨pv, i⟩⟩)
    else none)

/-- The stores of all records: records in list order, indices ascending. -/
def all_writes (find_pv : volume_group → String → Option Nat)
    (find_lv_num : volume_group → Nat → Option Nat) (vg : volume_group)
    (pvs : List disk_list) : List pe_write :=
  pvs.flatMap (fun dl =>
    pes_writes (find_lv_num vg) (find_pv vg dl.pv.pv_name) dl (List.range dl.pv.pe_total))

/-- The last store of a list that goes to slot `le` of logical volume `k`. -/
def last_write (ws : List pe_write) (k le : Nat) : Option pe_write :=
  ws.reverse.find? (fun w => decide (w.k = k ∧ w.le = le))

/-- Slot `le` of the map of the logical volume with handle `k`; `none` when
the handle names no logical volume of the list. -/
def lvs_at (l : List logical_volume) (k le : Nat) : Option pe_specifier :=
  (l[k]?).map (fun lv => lv.map le)

def map_at (vg : volume_group) (k le : Nat) : Option pe_specifier :=
  lvs_at vg.lvs k le

/-! ## Values for the parameters, used in examples -/

/-- A lookup for `find_lv_num` that follows the LVM1 numbering: number `n`
names the `n`-th logical volume of the group, counted from one. -/
def lv_by_number (vg : volume_group) (n : Nat) : Option Nat :=
  if 0 < n ∧ n ≤ vg.lvs.length then some (n - 1) else none

/-- A lookup for `find_pv` over a table of device names: the handle of a
physical volume is the position of its name. -/
def pv_by_name (names : List String) (_vg : volume_group) (name : String) : Option Nat :=
  let i := names.indexOf name
  if i < names.length then some i else none

/-- A pool that grants `n` requests and hands out zeroed memory. -/
def clean_pool (n : Nat) : pool :=
  { answers := List.replicate n true, stale_pe := fun _ => ⟨none, 0⟩, stale := 0 }

/-- A pool that grants `n` requests and hands out memory used before. -/
def used_pool (n : Nat) : pool :=
  { answers := List.replicate n true, stale_pe := fun j => ⟨some 3, j + 7⟩, stale := 99 }

/-- A lookup does not read the extent maps: a store into a map leaves its
answers as they were. -/
def map_blind {α : Type} (f : volume_group → α) : Prop :=
  ∀ (vg : volume_group) (k le : Nat) (x : pe_specifier), f (store vg k le x) = f vg

/-- The pool grants the next `n` requests. -/
def grants (mem : pool) (n : Nat) : Prop :=
  ∃ rest, mem.answers = List.replicate n true ++ rest

/-! ## Example data

Two PVs of ten extents each, extent size 4 MiB (8192 sectors); one LV `data` of
twelve logical extents: logical extents 0 to 9 on extents 0 to 9 of `PV-A`,
logical extents 10 and 11 on extents 0 and 1 of `PV-B`, the other extents of
`PV-B` free. -/

def ex_vgd : vg_disk :=
  { vg_uuid := [1], vg_status := 0, vg_access := 0, pe_size := 8192, pe_total := 20,
    pe_allocated := 12, lv_max := 256, pv_max := 256, other := [] }

def ex_pvd (name : String) (uuid : Nat) : pv_disk :=
  { pv_uuid := [uuid], pv_name := name, vg_name := "myvg", pv_status := 0,
    pv_size := 81920, pe_size := 8192, pe_start := 1, pe_count := 10, pe_total := 10,
    pe_allocated := 10 }

def ex_data : lv_disk :=
  { lv_name := "data", lv_access := 0, lv_status := 0, lv_open := 0, lv_size := 98304,
    lv_allocated_lv := 12 }

def ex_rec_a : disk_list :=
  { vg := ex_vgd, pv := ex_pvd "PV-A" 2, lvs := [ex_data],
    extents := (List.range 10).map (fun i => ⟨1, i⟩), dev := 0, exported := 0 }

def ex_rec_b : disk_list :=
  { vg := ex_vgd, pv := ex_pvd "PV-B" 3, lvs := [ex_data],
    extents := [⟨1, 10⟩, ⟨1, 11⟩] ++ List.replicate 8 ⟨0, 0⟩, dev := 1, exported := 0 }

/-- The record of `PV-B` with another extent size in its copy of the VG
descriptor. -/
def ex_rec_b_pe_size : disk_list :=
  { ex_rec_b with vg := { ex_vgd with pe_size := 4096 } }

/-- A record of one extent whose table names LV number 7, while the only LV
descriptor around is number 1. -/
def ex_rec_dangling : disk_list :=
  { ex_rec_a with pv := { ex_pvd "PV-A" 2 with pe_total := 1 }, extents := [⟨7, 0⟩] }

/-- A record of one extent whose table names logical extent 12 of `data`, one
behind the last of its twelve. -/
def ex_rec_range : disk_list :=
  { ex_rec_a with pv := { ex_pvd "PV-A" 2 with pe_total := 1 }, extents := [⟨1, 12⟩] }

/-- A record of two extents that both name logical extent 0 of `data`. -/
def ex_rec_twice : disk_list :=
  { ex_rec_a with pv := { ex_pvd "PV-A" 2 with pe_total := 2 }, extents := [⟨1, 0⟩, ⟨1, 0⟩] }

/-- A record of one free extent with the descriptor of `data`. -/
def ex_rec_free : disk_list :=
  { ex_rec_a with pv := { ex_pvd "PV-A" 2 with pe_total := 1 }, extents := [⟨0, 0⟩] }

/-- A descriptor without logical extents. -/
def ex_empty_lvd : lv_disk :=
  { ex_data with lv_name := "empty", lv_size := 0, lv_allocated_lv := 0 }

/-- A record of one free extent whose only descriptor has no logical extents. -/
def ex_rec_empty_lv : disk_list :=
  { ex_rec_free with lvs := [ex_empty_lvd] }

/-- The logical volume `data` with all twelve slots unresolved. -/
def ex_lv_data : logical_volume :=
  { id := List.replicate ID_LEN 0, name := "data", access := 0, status := 0, opened := 0,
    size := 98304, le_count := 12, map := fun _ => ⟨none, 0⟩ }

/-- A volume group whose only logical volume is `data`. -/
def ex_vg : volume_group :=
  { zero_vg with lvs := [ex_lv_data] }

/-- The handles of the two PVs: `PV-A` is 0, `PV-B` is 1. -/
def ex_find_pv : volume_group → String → Option Nat :=
  pv_by_name ["PV-A", "PV-B"]

/-! ## `_vg_read`

`pool_create`, `pool_destroy` and `read_pvs_in_vg` are not among the sources.
The pools alive are kept as explicit state; whether `pool_create` gets memory
and what `read_pvs_in_vg` finds are parameters. -/

/-- The pools alive: the identifiers of the pools created and not destroyed
so far, and the identifier the next pool gets. -/
structure pools where
  live : List Nat
  fresh : Nat
deriving DecidableEq, Repr

/-- The call `pool_create(size)`: the new pool and the pools alive afterwards,
`none` for `NULL`. -/
def pool_create (ps : pools) (ok : Bool) : Option (Nat × pools) :=
  if ok then some (ps.fresh, { live := ps.fresh :: ps.live, fresh := ps.fresh + 1 })
  else none

def pool_destroy (ps : pools) (id : Nat) : pools :=
  { ps with live := ps.live.erase id }

/-- The part of `struct io_space` that `_vg_read` uses. -/
structure io_space where
  mem : pool
  filter : Nat

/-- The function `_vg_read`: what it returns and the pools alive afterwards.
The records are read into the scratch pool `mem`; the volume group is built in
`is->mem`.  The return after a failed `read_pvs_in_vg` comes before
`pool_destroy`. -/
def _vg_read (read_pvs_in_vg : String → Nat → Option (List disk_list)) (create_ok : Bool)
    (ps : pools) (io : io_space) (vg_name : String) : Option volume_group × pools :=
  match pool_create ps create_ok with
  | none => (none, ps)
  | some (mem, ps1) =>
    match read_pvs_in_vg vg_name io.filter with
    | none => (none, ps1)
    | some pvs =>
      match _build_vg io.mem pvs with
      | none => (none, pool_destroy ps1 mem)
      | some (vg, _) => (some vg, pool_destroy ps1 mem)

/-! ## More example data -/

/-- The physical volume that `_import_pvs` makes of a record, in a pool whose
memory reads `stale` as a counter. -/
def pv_of_record (stale : Nat) (dl : disk_list) : physical_volume :=
  { id := dl.pv.pv_uuid.take ID_LEN
    dev := dl.dev
    vg_name := dl.pv.vg_name
    exported := dl.exported
    status := dl.pv.pv_status
    size := dl.pv.pv_size
    pe_size := dl.pv.pv_size
    pe_start := stale
    pe_count := stale
    pe_allocated := stale }

/-- The record of `PV-B` carrying the PV identifier of `PV-A`. -/
def ex_rec_b_same_uuid : disk_list :=
  { ex_rec_b with pv := { ex_pvd "PV-B" 3 with pv_uuid := ex_rec_a.pv.pv_uuid } }

/-- A VG descriptor with more extents allocated than it has. -/
def ex_vgd_over : vg_disk :=
  { ex_vgd with pe_total := 10, pe_allocated := 11 }

/-- The record of `PV-A` with the over-allocated VG descriptor. -/
def ex_rec_over : disk_list :=
  { ex_rec_a with vg := ex_vgd_over }

/-- A VG descriptor that counts 25 extents, five more than the two PVs have. -/
def ex_vgd_25 : vg_disk :=
  { ex_vgd with pe_total := 25 }

def ex_rec_a_25 : disk_list :=
  { ex_rec_a with vg := ex_vgd_25 }

def ex_rec_b_25 : disk_list :=
  { ex_rec_b with vg := ex_vgd_25 }

/-- A pool that grants `n` requests and whose memory reads 10 as a counter. -/
def ten_pool (n : Nat) : pool :=
  { answers := List.replicate n true, stale_pe := fun _ => ⟨none, 0⟩, stale := 10 }

/-- A scan that finds the two records of the scenario for `myvg` and nothing
for any other name. -/
def ex_read_pvs (vg_name : String) (_filter : Nat) : Option (List disk_list) :=
  if vg_name = "myvg" then some [ex_rec_a, ex_rec_b] else none

/-- An `io_space` whose pool grants every request of the scenario. -/
def ex_io : io_space :=
  { mem := clean_pool 11, filter := 0 }

/-- Two pools alive, the next one gets the identifier 7. -/
def ex_pools : pools :=
  { live := [5, 2], fresh := 7 }

end Format1

/-! # The activation layer (`lib/activate/activate.c`)

The functions that resolve an LV identifier and act on the state of the
logical volume.  The metadata reader, `find_lv_in_vg_by_uuid` and the device
manager are not among the sources: they are parameters.  The calls the code
makes are written to a log, in order. -/

namespace Activate

open Format1

/-- Modelled from the spec: `EXPORTED_VG` is declared outside the sources; the
spec only says that the status flags of a volume group include "exported".
Nothing below depends on the value. -/
def EXPORTED_VG : Nat := 2

/-- The part of `struct cmd_context` that `_lv_from_lvid` uses: the pool
`cmd->mem` and the reader `cmd->fid->ops->vg_read`. -/
structure cmd_context where
  mem : pool
  vg_read : String → Option volume_group

/-- The fields of `struct dm_info` that `activate.c` reads; `exists_` is the C
field `exists`. -/
structure dm_info where
  exists_ : Int
  suspended : Int
  open_count : Int
deriving DecidableEq, Repr

/-- The device manager: whether `dev_manager_create(lv->vg->name)` returns a
manager, and what `dev_manager_info` fills in (`none` when it returns 0). -/
structure dev_env where
  dev_manager_create : logical_volume → Bool
  dev_manager_info : logical_volume → Option dm_info

/-- A call that leaves `activate.c`. -/
inductive event where
  | vg_read (vgname : String)
  | find_lv (lv_uuid : String)
  | lv_suspend (lv : logical_volume)
  | lv_reactivate (lv : logical_volume)

/-- The C call `strchr(s, c)`: the rest of the string from the first `c` on,
`none` for `NULL`. -/
def strchr : List Char → Char → Option (List Char)
  | [], _ => none
  | x :: xs, c => if x = c then some (x :: xs) else strchr xs c

/-- The string a buffer reads as after `*strchr(s, c) = 0`: the characters in
front of the first `c`. -/
def cut_at : List Char → Char → List Char
  | [], _ => []
  | x :: xs, c => if x = c then [] else x :: cut_at xs c

/-- The function `_lv_from_lvid`: the pointer it returns and the calls it has
made.  The result of `pool_strdup` is used unchecked: when the pool refuses
the request, `*strchr(vgname, '/') = 0` goes through a null pointer, and the
embedding answers `none`. -/
def _lv_from_lvid (cmd : cmd_context)
    (find_lv_in_vg_by_uuid : volume_group → String → Option logical_volume)
    (lvid : String) : Option (Option logical_volume × List event) :=
  match strchr lvid.data '/' with
  | none => some (none, [])
  | some slash =>
    match pool_strdup cmd.mem lvid with
    | none => none
    | some (copy, _) =>
      let vgname := String.mk (cut_at copy.data '/')
      match cmd.vg_read vgname with
      | none => some (none, [event.vg_read vgname])
      | some vg =>
        if vg.status &&& EXPORTED_VG ≠ 0 then some (none, [event.vg_read vgname])
        else
          match find_lv_in_vg_by_uuid vg (String.mk slash.tail) with
          | none => some (none, [event.vg_read vgname, event.find_lv (String.mk slash.tail)])
          | some lv =>
            some (some lv, [event.vg_read vgname, event.find_lv (String.mk slash.tail)])

/-- The function `lv_info`: the structure filled in, `none` when it returns 0. -/
def lv_info (dev : dev_env) (lv : logical_volume) : Option dm_info :=
  if dev.dev_manager_create lv then dev.dev_manager_info lv else none

def lv_active (dev : dev_env) (lv : logical_volume) : Int :=
  match lv_info dev lv with
  | none => -1
  | some info => info.exists_

def lv_suspended (dev : dev_env) (lv : logical_volume) : Int :=
  match lv_info dev lv with
  | none => -1
  | some info => info.suspended

def lv_open_count (dev : dev_env) (lv : logical_volume) : Int :=
  match lv_info dev lv with
  | none => -1
  | some info => info.open_count

/-- The function `lv_suspend_if_active`: its return value and the calls made.
The test is `if (lv_active(lv))`: any value but 0 counts. -/
def lv_suspend_if_active (cmd : cmd_context)
    (find_lv_in_vg_by_uuid : volume_group → String → Option logical_volume)
    (dev : dev_env) (lvid : String) : Option (Int × List event) :=
  match _lv_from_lvid cmd find_lv_in_vg_by_uuid lvid with
  | none => none
  | some (none, log) => some (0, log)
  | some (some lv, log) =>
    if lv_active dev lv ≠ 0 then some (1, log ++ [event.lv_suspend lv]) else some (1, log)

/-- The function `lv_resume_if_active`: its return value and the calls made. -/
def lv_resume_if_active (cmd : cmd_context)
    (find_lv_in_vg_by_uuid : volume_group → String → Option logical_volume)
    (dev : dev_env) (lvid : String) : Option (Int × List event) :=
  match _lv_from_lvid cmd find_lv_in_vg_by_uuid lvid with
  | none => none
  | some (none, log) => some (0, log)
  | some (some lv, log) =>
    if lv_active dev lv ≠ 0 then some (1, log ++ [event.lv_reactivate lv]) else some (1, log)

/-- The function `lvs_in_vg_opened` on the list `vg->lvs`, from the running
`count`: each logical volume adds the value of `lv_open_count(lv) == 1`. -/
def lvs_opened_loop (dev : dev_env) : List logical_volume → Int → Int
  | [], count => count
  | lv :: rest, count =>
    lvs_opened_loop dev rest (count + (if lv_open_count dev lv = 1 then 1 else 0))

def lvs_in_vg_opened (dev : dev_env) (vg : volume_group) : Int :=
  lvs_opened_loop dev vg.lvs 0

/-- The part of an identifier in front of its first `/`. -/
def lvid_vgname (lvid : String) : String :=
  String.mk (cut_at lvid.data '/')

/-- The part of an identifier behind its first `/` (the string at `slash + 1`);
empty when there is no `/`. -/
def lvid_lv_uuid (lvid : String) : String :=
  String.mk ((strchr lvid.data '/').getD []).tail

/-! ## Example data -/

/-- A reader that knows the volume group `myvg`, with the logical volume
`data`, and an exported volume group `gone`. -/
def ex_vg_read (vgname : String) : Option volume_group :=
  if vgname = "myvg" then some ex_vg
  else if vgname = "gone" then some { ex_vg with status := EXPORTED_VG }
  else none

/-- A lookup that knows the identifier `abc123` for the first logical volume. -/
def ex_find_lv (vg : volume_group) (lv_uuid : String) : Option logical_volume :=
  if lv_uuid = "abc123" then vg.lvs.head? else none

def ex_cmd : cmd_context :=
  { mem := clean_pool 1, vg_read := ex_vg_read }

/-- The same command context with a pool that refuses the next request. -/
def ex_cmd_no_mem : cmd_context :=
  { mem := clean_pool 0, vg_read := ex_vg_read }

/-- A device manager that cannot be created: every state query fails. -/
def ex_dev_broken : dev_env :=
  { dev_manager_create := fun _ => false, dev_manager_info := fun _ => none }

/-- A device manager that reports every logical volume as not there. -/
def ex_dev_inactive : dev_env :=
  { dev_manager_create := fun _ => true,
    dev_manager_info := fun _ => some { exists_ := 0, suspended := 0, open_count := 0 } }

/-- A device manager that reports every logical volume as there and opened
twice. -/
def ex_dev_open_twice : dev_env :=
  { dev_manager_create := fun _ => true,
    dev_manager_info := fun _ => some { exists_ := 1, suspended := 0, open_count := 2 } }

/-- A device manager that reports every logical volume as there and opened
once. -/
def ex_dev_open_once : dev_env :=
  { dev_manager_create := fun _ => true,
    dev_manager_info := fun _ => some { exists_ := 1, suspended := 0, open_count := 1 } }

end Activate

namespace Format1

/-! ## Theorems -/

/-! ### `_import_vg` -/

theorem import_vg_loop_some (first : vg_disk) (vg : volume_group) (pvs : List disk_list) :
    (import_vg_loop (some first) vg pvs).isSome ↔ ∀ dl ∈ pvs, dl.vg = first := by
  induction pvs with
  | nil => simp [import_vg_loop]
  | cons dl rest ih =>
    by_cases h : first = dl.vg
    · subst h
      simpa [import_vg_loop] using ih
    · simp only [import_vg_loop, ne_eq, h, not_false_eq_true, ↓reduceIte, Option.isSome_none,
        Bool.false_eq_true, List.mem_cons, forall_eq_or_imp, false_iff, not_and]
      intro h'; exact absurd h'.symm h

/-! ### Stores into extent maps -/

theorem lvs_store_length (l : List logical_volume) (k le : Nat) (x : pe_specifier) :
    (lvs_store l k le x).length = l.length := by
  induction l generalizing k with
  | nil => rfl
  | cons lv rest ih =>
    cases k with
    | zero => rfl
    | succ k => simp [lvs_store, ih]

theorem lvs_at_store (l : List logical_volume) (k le : Nat) (x : pe_specifier) (k2 le2 : Nat) :
    lvs_at (lvs_store l k le x) k2 le2 =
      if k2 = k ∧ le2 = le then (lvs_at l k2 le2).map (fun _ => x) else lvs_at l k2 le2 := by
  induction l generalizing k k2 with
  | nil => simp [lvs_store, lvs_at]
  | cons lv rest ih =>
    cases k with
    | zero =>
      cases k2 with
      | zero =>
        by_cases h : le2 = le
        · simp [lvs_store, lvs_at, h]
        · simp [lvs_store, lvs_at, h, Function.update]
      | succ k2 => simp [lvs_store, lvs_at]
    | succ k =>
      cases k2 with
      | zero => simp [lvs_store, lvs_at]
      | succ k2 =>
        have := ih k k2
        simpa [lvs_store, lvs_at] using this

theorem map_at_store (vg : volume_group) (k le : Nat) (x : pe_specifier) (k2 le2 : Nat) :
    map_at (store vg k le x) k2 le2 =
      if k2 = k ∧ le2 = le then (map_at vg k2 le2).map (fun _ => x) else map_at vg k2 le2 :=
  lvs_at_store vg.lvs k le x k2 le2

theorem last_write_append_one (ws : List pe_write) (w : pe_write) (k le : Nat) :
    last_write (ws ++ [w]) k le =
      if w.k = k ∧ w.le = le then some w else last_write ws k le := by
  unfold last_write
  rw [List.reverse_append, List.reverse_singleton, List.singleton_append, List.find?_cons]
  by_cases h : w.k = k ∧ w.le = le
  · simp [h]
  · simp [h]

/-- After a run of stores a slot holds what the last store to it put there,
or its old content when no store went to it. -/
theorem map_at_foldl (ws : List pe_write) (vg : volume_group) (k le : Nat) :
    map_at (ws.foldl apply_write vg) k le =
      match last_write ws k le with
      | some w => (map_at vg k le).map (fun _ => w.x)
      | none => map_at vg k le := by
  induction ws using List.reverseRecOn with
  | nil => simp [last_write]
  | append_singleton ws w ih =>
    rw [List.foldl_append, last_write_append_one]
    simp only [List.foldl_cons, List.foldl_nil, apply_write]
    rw [map_at_store, ih]
    by_cases h : w.k = k ∧ w.le = le
    · obtain ⟨rfl, rfl⟩ := h
      simp only [and_self, ↓reduceIte]
      cases last_write ws w.k w.le <;> cases map_at vg w.k w.le <;> rfl
    · have h2 : ¬ (k = w.k ∧ le = w.le) := fun h3 => h ⟨h3.1.symm, h3.2.symm⟩
      simp only [h, h2, ↓reduceIte]

theorem last_write_mem (ws : List pe_write) (k le : Nat) (w : pe_write)
    (h : last_write ws k le = some w) : w ∈ ws ∧ w.k = k ∧ w.le = le := by
  unfold last_write at h
  have h1 := List.find?_some h
  have h2 := List.mem_of_find?_eq_some h
  exact ⟨List.mem_reverse.mp h2, by simpa using h1⟩

theorem last_write_none (ws : List pe_write) (k le : Nat)
    (h : last_write ws k le = none) : ∀ w ∈ ws, ¬ (w.k = k ∧ w.le = le) := by
  unfold last_write at h
  rw [List.find?_eq_none] at h
  intro w hw
  simpa using h w (List.mem_reverse.mpr hw)

/-! ### Lookups that do not read the maps -/

theorem map_blind_foldl {α : Type} (f : volume_group → α) (hf : map_blind f)
    (ws : List pe_write) (vg : volume_group) : f (ws.foldl apply_write vg) = f vg := by
  induction ws generalizing vg with
  | nil => rfl
  | cons w rest ih => rw [List.foldl_cons, ih, apply_write, hf]

theorem lv_by_number_blind : map_blind lv_by_number := by
  intro vg k le x
  funext n
  simp [lv_by_number, store, lvs_store_length]

theorem pv_by_name_blind (names : List String) : map_blind (pv_by_name names) := by
  intro vg k le x
  rfl

/-! ### `_import_extents` -/

theorem pes_writes_cons (g : Nat → Option Nat) (pv : Option Nat) (dl : disk_list) (i : Nat)
    (rest : List Nat) :
    pes_writes g pv dl (i :: rest) =
      (if (entry dl i).lv_num ≠ 0 then
        match g (entry dl i).lv_num with
        | some k => [⟨k, (entry dl i).le_num, ⟨pv, i⟩⟩]
        | none => []
      else []) ++ pes_writes g pv dl rest := by
  unfold pes_writes
  rw [List.filterMap_cons]
  by_cases h : (entry dl i).lv_num = 0
  · simp [h]
  · cases hg : g (entry dl i).lv_num <;> simp [h, hg]

/-- The inner loop fails exactly on an owned entry that does not resolve. -/
theorem import_pes_none_iff (fl : volume_group → Nat → Option Nat) (hfl : map_blind fl)
    (pv : Option Nat) (dl : disk_list) (is : List Nat) (vg : volume_group) :
    import_pes fl pv dl is vg = none ↔
      ∃ i ∈ is, (entry dl i).lv_num ≠ 0 ∧ fl vg (entry dl i).lv_num = none := by
  induction is generalizing vg with
  | nil => simp [import_pes]
  | cons i rest ih =>
    unfold import_pes
    by_cases h : (entry dl i).lv_num = 0
    · simp [h, ih]
    · cases hg : fl vg (entry dl i).lv_num with
      | none => simp [h, hg]
      | some k => simp [h, hg, ih, hfl vg]

/-- When the inner loop succeeds, it has done the stores of `pes_writes`. -/
theorem import_pes_some (fl : volume_group → Nat → Option Nat) (hfl : map_blind fl)
    (pv : Option Nat) (dl : disk_list) (is : List Nat) (vg vg2 : volume_group)
    (h : import_pes fl pv dl is vg = some vg2) :
    vg2 = (pes_writes (fl vg) pv dl is).foldl apply_write vg := by
  induction is generalizing vg with
  | nil => simpa [import_pes, pes_writes] using h.symm
  | cons i rest ih =>
    unfold import_pes at h
    rw [pes_writes_cons]
    by_cases h0 : (entry dl i).lv_num = 0
    · simp only [h0, ne_eq, not_true_eq_false, ↓reduceIte] at h
      simpa [h0] using ih vg h
    · cases hg : fl vg (entry dl i).lv_num with
      | none => simp [h0, hg] at h
      | some k =>
        simp only [ne_eq, h0, not_false_eq_true, ↓reduceIte, hg] at h
        have := ih _ h
        rw [hfl vg] at this
        simpa [h0, hg, apply_write] using this

theorem all_writes_cons (fp : volume_group → String → Option Nat)
    (fl : volume_group → Nat → Option Nat) (vg : volume_group) (dl : disk_list)
    (rest : List disk_list) :
    all_writes fp fl vg (dl :: rest) =
      pes_writes (fl vg) (fp vg dl.pv.pv_name) dl (List.range dl.pv.pe_total) ++
        all_writes fp fl vg rest := by
  simp [all_writes]

/-- When `_import_extents` succeeds, it has done the stores of `all_writes`. -/
theorem import_extents_some (fp : volume_group → String → Option Nat)
    (fl : volume_group → Nat → Option Nat) (hfp : map_blind fp) (hfl : map_blind fl)
    (pvs : List disk_list) (vg vg2 : volume_group)
    (h : _import_extents fp fl vg pvs = some vg2) :
    vg2 = (all_writes fp fl vg pvs).foldl apply_write vg := by
  induction pvs generalizing vg with
  | nil => simpa [_import_extents, all_writes] using h.symm
  | cons dl rest ih =>
    unfold _import_extents at h
    cases h1 : import_pes fl (fp vg dl.pv.pv_name) dl (List.range dl.pv.pe_total) vg with
    | none => simp [h1] at h
    | some vg1 =>
      simp only [h1] at h
      have e1 := import_pes_some fl hfl _ dl _ vg vg1 h1
      have e2 := ih vg1 h
      have b1 : fp vg1 = fp vg := by rw [e1]; exact map_blind_foldl fp hfp _ vg
      have b2 : fl vg1 = fl vg := by rw [e1]; exact map_blind_foldl fl hfl _ vg
      rw [all_writes_cons, List.foldl_append, ← e1, e2]
      simp [all_writes, b1, b2]

/-- The function `_import_extents` fails exactly on an owned entry, at an index
below `pe_total` of its record, whose LV number does not resolve. -/
theorem import_extents_none_iff (fp : volume_group → String → Option Nat)
    (fl : volume_group → Nat → Option Nat) (hfl : map_blind fl)
    (pvs : List disk_list) (vg : volume_group) :
    _import_extents fp fl vg pvs = none ↔
      ∃ dl ∈ pvs, ∃ i, i < dl.pv.pe_total ∧ (entry dl i).lv_num ≠ 0 ∧
        fl vg (entry dl i).lv_num = none := by
  induction pvs generalizing vg with
  | nil => simp [_import_extents]
  | cons dl rest ih =>
    unfold _import_extents
    cases h1 : import_pes fl (fp vg dl.pv.pv_name) dl (List.range dl.pv.pe_total) vg with
    | none =>
      have := (import_pes_none_iff fl hfl _ dl _ vg).mp h1
      obtain ⟨i, hi, h2, h3⟩ := this
      simp only [List.mem_cons, exists_eq_or_imp, true_iff]
      exact Or.inl ⟨i, List.mem_range.mp hi, h2, h3⟩
    | some vg1 =>
      have e1 := import_pes_some fl hfl _ dl _ vg vg1 h1
      have b2 : fl vg1 = fl vg := by rw [e1]; exact map_blind_foldl fl hfl _ vg
      have hno : ¬ ∃ i, i < dl.pv.pe_total ∧ (entry dl i).lv_num ≠ 0 ∧
          fl vg (entry dl i).lv_num = none := by
        intro ⟨i, hi, h2, h3⟩
        have : import_pes fl (fp vg dl.pv.pv_name) dl (List.range dl.pv.pe_total) vg = none :=
          (import_pes_none_iff fl hfl _ dl _ vg).mpr ⟨i, List.mem_range.mpr hi, h2, h3⟩
        rw [h1] at this
        exact Option.noConfusion this
      simp only [ih vg1, b2, List.mem_cons, exists_eq_or_imp, hno, false_or]

theorem map_at_some_of_lt (vg : volume_group) (k le : Nat) (h : k < vg.lvs.length) :
    ∃ y, map_at vg k le = some y := by
  unfold map_at lvs_at
  rw [List.getElem?_eq_getElem h]
  exact ⟨_, rfl⟩

theorem mem_pes_writes (g : Nat → Option Nat) (pv : Option Nat) (dl : disk_list)
    (is : List Nat) (w : pe_write) :
    w ∈ pes_writes g pv dl is ↔
      ∃ i ∈ is, (entry dl i).lv_num ≠ 0 ∧ g (entry dl i).lv_num = some w.k ∧
        w.le = (entry dl i).le_num ∧ w.x = ⟨pv, i⟩ := by
  unfold pes_writes
  rw [List.mem_filterMap]
  constructor
  · rintro ⟨i, hi, h⟩
    by_cases h0 : (entry dl i).lv_num = 0
    · simp [h0] at h
    · cases hg : g (entry dl i).lv_num with
      | none => simp [h0, hg] at h
      | some k =>
        simp only [ne_eq, h0, not_false_eq_true, ↓reduceIte, hg, Option.map_some',
          Option.some.injEq] at h
        subst h
        exact ⟨i, hi, h0, hg, rfl, rfl⟩
  · rintro ⟨i, hi, h0, hg, hle, hx⟩
    refine ⟨i, hi, ?_⟩
    cases w with
    | mk k le x =>
      simp only at hg hle hx
      simp [h0, hg, hle, hx]

/-- The stores of `all_writes` are the owned entries that resolve, each with
the place it stands at: record `m` of the list, index `j` of its table. -/
theorem mem_all_writes (fp : volume_group → String → Option Nat)
    (fl : volume_group → Nat → Option Nat) (vg : volume_group) (pvs : List disk_list)
    (w : pe_write) :
    w ∈ all_writes fp fl vg pvs ↔
      ∃ (m : Nat) (r : disk_list) (j : Nat), pvs[m]? = some r ∧ j < r.pv.pe_total ∧
        (entry r j).lv_num ≠ 0 ∧ fl vg (entry r j).lv_num = some w.k ∧
        w.le = (entry r j).le_num ∧ w.x = ⟨fp vg r.pv.pv_name, j⟩ := by
  unfold all_writes
  rw [List.mem_flatMap]
  constructor
  · rintro ⟨r, hr, hw⟩
    obtain ⟨m, hm⟩ := List.mem_iff_getElem?.mp hr
    obtain ⟨j, hj, h⟩ := (mem_pes_writes _ _ _ _ _).mp hw
    exact ⟨m, r, j, hm, List.mem_range.mp hj, h⟩
  · rintro ⟨m, r, j, hm, hj, h⟩
    exact ⟨r, List.mem_iff_getElem?.mpr ⟨m, hm⟩,
      (mem_pes_writes _ _ _ _ _).mpr ⟨j, List.mem_range.mpr hj, h⟩⟩

/-! ### `_add_lv` and `_import_lvs` -/

theorem grants_mono (mem : pool) (m n : Nat) (hmn : m ≤ n) (h : grants mem n) :
    grants mem m := by
  obtain ⟨rest, hr⟩ := h
  refine ⟨List.replicate (n - m) true ++ rest, ?_⟩
  rw [hr, ← List.append_assoc, ← List.replicate_add]
  congr 2
  omega

theorem add_lv_isSome_iff (mem : pool) (vg : volume_group) (lvd : lv_disk) :
    (_add_lv mem vg lvd).isSome ↔ grants mem 3 := by
  rcases mem with ⟨ans, sp, st⟩
  rcases ans with _ | ⟨b1, _ | ⟨b2, _ | ⟨b3, rest⟩⟩⟩ <;>
    first
    | (cases b1 <;> cases b2 <;> cases b3 <;>
        simp [_add_lv, pool_alloc, pool_strdup, grants, List.replicate])
    | (cases b1 <;> cases b2 <;>
        simp [_add_lv, pool_alloc, pool_strdup, grants, List.replicate])
    | (cases b1 <;> simp [_add_lv, pool_alloc, pool_strdup, grants, List.replicate])
    | simp [_add_lv, pool_alloc, pool_strdup, grants, List.replicate]

/-- What `_add_lv` builds when the pool grants its three requests. -/
theorem add_lv_some (mem : pool) (vg : volume_group) (lvd : lv_disk) (lv : logical_volume)
    (mem2 : pool) (h : _add_lv mem vg lvd = some (lv, mem2)) :
    lv = { id := List.replicate ID_LEN 0, name := lvd.lv_name, access := lvd.lv_access,
           status := lvd.lv_status, opened := lvd.lv_open, size := lvd.lv_size,
           le_count := lvd.lv_allocated_lv, map := mem.stale_pe } ∧
    mem.answers = true :: true :: true :: mem2.answers ∧
    mem2.stale_pe = mem.stale_pe ∧ mem2.stale = mem.stale := by
  rcases mem with ⟨ans, sp, st⟩
  rcases ans with _ | ⟨b1, _ | ⟨b2, _ | ⟨b3, rest⟩⟩⟩ <;>
    first
    | (cases b1 <;> cases b2 <;> cases b3 <;>
        simp [_add_lv, pool_alloc, pool_strdup] at h <;>
        (obtain ⟨h1, h2⟩ := h; subst h1; subst h2; simp))
    | (cases b1 <;> cases b2 <;> simp [_add_lv, pool_alloc, pool_strdup] at h)
    | (cases b1 <;> simp [_add_lv, pool_alloc, pool_strdup] at h)
    | simp [_add_lv, pool_alloc, pool_strdup] at h

theorem add_lv_of_grants (mem : pool) (vg : volume_group) (lvd : lv_disk) (n : Nat)
    (h : grants mem (n + 3)) :
    ∃ lv mem2, _add_lv mem vg lvd = some (lv, mem2) ∧ grants mem2 n := by
  have h3 : grants mem 3 := grants_mono mem 3 (n + 3) (by omega) h
  have hs := (add_lv_isSome_iff mem vg lvd).mpr h3
  obtain ⟨⟨lv, mem2⟩, hv⟩ := Option.isSome_iff_exists.mp hs
  refine ⟨lv, mem2, hv, ?_⟩
  obtain ⟨_, ha, _, _⟩ := add_lv_some mem vg lvd lv mem2 hv
  obtain ⟨rest, hr⟩ := h
  refine ⟨rest, ?_⟩
  rw [ha] at hr
  have : List.replicate (n + 3) true = true :: true :: true :: List.replicate n true := rfl
  rw [this] at hr
  simpa using hr

/-- The inner loop of `_import_lvs` hands the volume group back as it got it. -/
theorem import_lvds_vg (lvds : List lv_disk) (mem mem2 : pool) (vg vg2 : volume_group)
    (h : import_lvds mem vg lvds = some (vg2, mem2)) : vg2 = vg := by
  induction lvds generalizing mem with
  | nil => simp [import_lvds] at h; exact h.1.symm
  | cons lvd rest ih =>
    unfold import_lvds at h
    cases hf : _find_lv vg lvd.lv_name with
    | some lv => rw [hf] at h; exact ih mem h
    | none =>
      rw [hf] at h
      cases ha : _add_lv mem vg lvd with
      | none => simp [ha] at h
      | some p => simp only [ha] at h; exact ih p.2 h

/-- The function `_import_lvs` hands the volume group back as it got it: the
logical volumes `_add_lv` builds are linked nowhere. -/
theorem import_lvs_vg (pvs : List disk_list) (mem mem2 : pool) (vg vg2 : volume_group)
    (h : _import_lvs mem vg pvs = some (vg2, mem2)) : vg2 = vg := by
  induction pvs generalizing mem vg with
  | nil => simp [_import_lvs] at h; exact h.1.symm
  | cons dl rest ih =>
    unfold _import_lvs at h
    cases h1 : import_lvds mem vg dl.lvs with
    | none => simp [h1] at h
    | some p =>
      simp only [h1] at h
      have e1 := import_lvds_vg dl.lvs mem p.2 vg p.1 h1
      have e2 := ih p.2 p.1 h
      rw [e2, e1]

theorem import_lvds_of_grants (lvds : List lv_disk) (mem : pool) (vg : volume_group) (n : Nat)
    (h : grants mem (n + 3 * lvds.length)) :
    ∃ mem2, import_lvds mem vg lvds = some (vg, mem2) ∧ grants mem2 n := by
  induction lvds generalizing mem with
  | nil => exact ⟨mem, rfl, by simpa using h⟩
  | cons lvd rest ih =>
    unfold import_lvds
    cases hf : _find_lv vg lvd.lv_name with
    | some lv =>
      exact ih mem (grants_mono mem _ _ (by simp only [List.length_cons]; omega) h)
    | none =>
      have h2 : grants mem ((n + 3 * rest.length) + 3) := by
        have e : n + 3 * (lvd :: rest).length = (n + 3 * rest.length) + 3 := by
          simp only [List.length_cons]; omega
        rw [e] at h; exact h
      obtain ⟨lv, mem1, ha, hg⟩ := add_lv_of_grants mem vg lvd _ h2
      simp only [ha]
      exact ih mem1 hg

theorem import_lvs_of_grants (pvs : List disk_list) (mem : pool) (vg : volume_group) (n : Nat)
    (h : grants mem (n + 3 * (pvs.map (fun dl => dl.lvs.length)).sum)) :
    ∃ mem2, _import_lvs mem vg pvs = some (vg, mem2) ∧ grants mem2 n := by
  induction pvs generalizing mem n with
  | nil => exact ⟨mem, rfl, by simpa using h⟩
  | cons dl rest ih =>
    unfold _import_lvs
    have h2 : grants mem ((n + 3 * (rest.map (fun dl => dl.lvs.length)).sum) +
        3 * dl.lvs.length) := by
      have e : n + 3 * ((dl :: rest).map (fun dl => dl.lvs.length)).sum =
          (n + 3 * (rest.map (fun dl => dl.lvs.length)).sum) + 3 * dl.lvs.length := by
        simp only [List.map_cons, List.sum_cons]; omega
      rw [e] at h; exact h
    obtain ⟨mem1, h1, hg⟩ := import_lvds_of_grants dl.lvs mem vg _ h2
    simp only [h1]
    exact ih mem1 n hg

/-! ### `_build_vg` -/

/-- A volume group is returned exactly when the pool grants the request for it
and the three phases that `_build_vg` runs succeed, one on the result of the
other. -/
theorem build_vg_isSome_iff (mem : pool) (pvs : List disk_list) :
    (_build_vg mem pvs).isSome ↔
      ∃ mem1 vg1 vg2 mem2 vg3 mem3, pool_alloc mem = some mem1 ∧
        _import_vg zero_vg pvs = some vg1 ∧ _import_pvs mem1 vg1 pvs = some (vg2, mem2) ∧
        _import_lvs mem2 vg2 pvs = some (vg3, mem3) := by
  unfold _build_vg
  cases h0 : pool_alloc mem with
  | none => simp
  | some mem1 =>
    cases h1 : _import_vg zero_vg pvs with
    | none => simp
    | some vg1 =>
      cases h2 : _import_pvs mem1 vg1 pvs with
      | none => simp [h2]
      | some p2 =>
        obtain ⟨vg2, mem2⟩ := p2
        cases h3 : _import_lvs mem2 vg2 pvs with
        | none => simp [h2, h3]
        | some p3 =>
          obtain ⟨vg3, mem3⟩ := p3
          simp only [h2, h3, Option.isSome_some, true_iff]
          exact ⟨mem1, vg1, vg2, mem2, vg3, mem3, rfl, rfl, h2, h3⟩

/-! ## The claims -/

/-- Claim C1 (fails on the code): a record list on which the extent mapping
phase fails still gets a volume group from `_build_vg`, which runs the VG
check, the PV import and the LV import only.  The record here has one extent
owned by LV number 7, and no logical volume to resolve it to. -/
theorem build_vg_skips_import_extents :
    ∃ vg mem2, _build_vg (clean_pool 6) [ex_rec_dangling] = some (vg, mem2) ∧
      _import_extents ex_find_pv lv_by_number vg [ex_rec_dangling] = none :=
  ⟨_, _, rfl, rfl⟩

/-- Claim C2: on a list of records that is not empty, `_import_vg` succeeds if
and only if the VG descriptor of every record equals, field by field and byte
by byte, the VG descriptor of the first record. -/
theorem import_vg_consistency (vg : volume_group) (pvs : List disk_list) (h : pvs ≠ []) :
    (_import_vg vg pvs).isSome ↔ ∀ dl ∈ pvs, dl.vg = (pvs.head h).vg := by
  cases pvs with
  | nil => exact absurd rfl h
  | cons dl rest =>
    simp only [_import_vg, import_vg_loop, List.head_cons, List.mem_cons, forall_eq_or_imp,
      true_and]
    exact import_vg_loop_some dl.vg _ rest

/-- Two records whose VG descriptors differ in `pe_size` only make `_import_vg`
fail. -/
theorem import_vg_consistency_witness :
    [ex_rec_a, ex_rec_b_pe_size] ≠ [] ∧ ex_rec_a.vg.pe_size ≠ ex_rec_b_pe_size.vg.pe_size ∧
      (_import_vg zero_vg [ex_rec_a, ex_rec_b_pe_size]).isSome = false := by
  refine ⟨by simp, by decide, ?_⟩
  have h := import_vg_consistency zero_vg [ex_rec_a, ex_rec_b_pe_size] (by simp)
  cases hs : (_import_vg zero_vg [ex_rec_a, ex_rec_b_pe_size]).isSome with
  | false => rfl
  | true =>
    have h2 := h.mp hs ex_rec_b_pe_size (by simp)
    exact absurd h2 (by decide)

/-- Claim C4: when `_import_extents` succeeds, an owned entry at index `i`
below `pe_total` of record `r`, with logical index `le`, whose LV number
resolves to logical volume `k` of the group, leaves slot `le` of the map of
`k` holding the pair of the physical volume of `r` and `i`, provided no other
owned entry (another record, or another index) names the same logical volume
and the same `le`.  The lookups are taken not to read the maps. -/
theorem import_extents_maps (fp : volume_group → String → Option Nat)
    (fl : volume_group → Nat → Option Nat) (hfp : map_blind fp) (hfl : map_blind fl)
    (vg vg2 : volume_group) (pvs : List disk_list)
    (h : _import_extents fp fl vg pvs = some vg2)
    (n : Nat) (r : disk_list) (hr : pvs[n]? = some r) (i : Nat) (hi : i < r.pv.pe_total)
    (hown : (entry r i).lv_num ≠ 0) (k : Nat) (hk : fl vg (entry r i).lv_num = some k)
    (hlv : k < vg.lvs.length)
    (huniq : ∀ (m : Nat) (r2 : disk_list) (j : Nat), pvs[m]? = some r2 → j < r2.pv.pe_total →
      (entry r2 j).lv_num ≠ 0 → fl vg (entry r2 j).lv_num = some k →
      (entry r2 j).le_num = (entry r i).le_num → m = n ∧ j = i) :
    map_at vg2 k (entry r i).le_num = some ⟨fp vg r.pv.pv_name, i⟩ := by
  have e := import_extents_some fp fl hfp hfl pvs vg vg2 h
  obtain ⟨y, hy⟩ := map_at_some_of_lt vg k (entry r i).le_num hlv
  rw [e, map_at_foldl]
  cases hl : last_write (all_writes fp fl vg pvs) k (entry r i).le_num with
  | none =>
    exfalso
    have hmem : (⟨k, (entry r i).le_num, ⟨fp vg r.pv.pv_name, i⟩⟩ : pe_write) ∈
        all_writes fp fl vg pvs :=
      (mem_all_writes fp fl vg pvs _).mpr ⟨n, r, i, hr, hi, hown, hk, rfl, rfl⟩
    exact last_write_none _ _ _ hl _ hmem ⟨rfl, rfl⟩
  | some w =>
    obtain ⟨hw, hwk, hwle⟩ := last_write_mem _ _ _ _ hl
    obtain ⟨m, r2, j, hm, hj, hown2, hk2, hle2, hx⟩ := (mem_all_writes fp fl vg pvs w).mp hw
    rw [hwk] at hk2
    rw [hwle] at hle2
    obtain ⟨hmn, hji⟩ := huniq m r2 j hm hj hown2 hk2 hle2.symm
    subst hmn; subst hji
    rw [hr] at hm
    have hrr : r = r2 := Option.some.inj hm
    subst hrr
    simp only [hy, Option.map_some', hx]

/-- The scenario of two PVs: entry 0 of `PV-B` is owned by `data` at logical
extent 10, and slot 10 of the map of `data` ends as the pair of `PV-B` and 0. -/
theorem import_extents_maps_witness :
    ∃ vg2, _import_extents ex_find_pv lv_by_number ex_vg [ex_rec_a, ex_rec_b] = some vg2 ∧
      ex_find_pv ex_vg "PV-B" = some 1 ∧ entry ex_rec_b 0 = ⟨1, 10⟩ ∧
      map_at vg2 0 10 = some ⟨some 1, 0⟩ := by
  refine ⟨_, rfl, by decide, by decide, ?_⟩
  refine import_extents_maps ex_find_pv lv_by_number (pv_by_name_blind _) lv_by_number_blind
    ex_vg _ [ex_rec_a, ex_rec_b] rfl 1 ex_rec_b rfl 0 (by decide) (by decide) 0 (by decide)
    (by decide) ?_
  intro m r2 j hm hj hown2 _ hle
  match m, hm with
  | 0, hm =>
    have hr2 : ex_rec_a = r2 := Option.some.inj hm
    subst hr2
    have hj2 : j < 10 := hj
    exfalso
    revert hle
    interval_cases j <;> decide
  | 1, hm =>
    have hr2 : ex_rec_b = r2 := Option.some.inj hm
    subst hr2
    have hj2 : j < 10 := hj
    revert hle hown2
    interval_cases j <;> decide
  | m + 2, hm => simp at hm

/-- Claim C5 (fails on the code): an owned entry whose logical index is not
below `le_count` does not make `_import_extents` fail.  The record names
logical extent 12 of `data`, whose map has twelve slots: the call succeeds and
has stored into slot 12, the first one behind the block of the map. -/
theorem import_extents_stores_out_of_range :
    ∃ vg2, _import_extents ex_find_pv lv_by_number ex_vg [ex_rec_range] = some vg2 ∧
      lv_by_number ex_vg (entry ex_rec_range 0).lv_num = some 0 ∧
      (entry ex_rec_range 0).le_num = 12 ∧ ex_vg.lvs.map (fun lv => lv.le_count) = [12] ∧
      map_at ex_vg 0 12 = some ⟨none, 0⟩ ∧ map_at vg2 0 12 = some ⟨some 0, 0⟩ :=
  ⟨_, rfl, by decide, by decide, by decide, by decide, by decide⟩

/-- Claim C6 (as stated, fails on the code): a record in which entries 0 and 1
both name logical extent 0 of `data` does not make `_import_extents` fail; the
slot ends with the later of the two, the pair of `PV-A` and 1. -/
theorem import_extents_accepts_duplicate :
    ∃ vg2, _import_extents ex_find_pv lv_by_number ex_vg [ex_rec_twice] = some vg2 ∧
      entry ex_rec_twice 0 = ⟨1, 0⟩ ∧ entry ex_rec_twice 1 = ⟨1, 0⟩ ∧
      map_at vg2 0 0 = some ⟨some 0, 1⟩ :=
  ⟨_, rfl, by decide, by decide, by decide⟩

/-- Claim C6, amended: duplicates are not rejected.  When every owned entry
below `pe_total` of its record resolves, `_import_extents` succeeds, whether or
not two entries name the same logical volume and logical index; each slot then
holds what the last store to it in scan order (records in list order, indices
ascending) put there, and its old content when no entry names it. -/
theorem import_extents_last_store_wins (fp : volume_group → String → Option Nat)
    (fl : volume_group → Nat → Option Nat) (hfp : map_blind fp) (hfl : map_blind fl)
    (vg : volume_group) (pvs : List disk_list)
    (hres : ∀ dl ∈ pvs, ∀ i, i < dl.pv.pe_total → (entry dl i).lv_num ≠ 0 →
      fl vg (entry dl i).lv_num ≠ none) :
    ∃ vg2, _import_extents fp fl vg pvs = some vg2 ∧
      ∀ k le, map_at vg2 k le =
        match last_write (all_writes fp fl vg pvs) k le with
        | some w => (map_at vg k le).map (fun _ => w.x)
        | none => map_at vg k le := by
  cases h : _import_extents fp fl vg pvs with
  | none =>
    exfalso
    obtain ⟨dl, hdl, i, hi, h0, hn⟩ := (import_extents_none_iff fp fl hfl pvs vg).mp h
    exact hres dl hdl i hi h0 hn
  | some vg2 =>
    refine ⟨vg2, rfl, fun k le => ?_⟩
    rw [import_extents_some fp fl hfp hfl pvs vg vg2 h]
    exact map_at_foldl _ vg k le

/-- The record with two entries for logical extent 0 of `data`: the call
succeeds and the last store to slot 0 is the one of entry 1. -/
theorem import_extents_last_store_wins_witness :
    (∀ dl ∈ [ex_rec_twice], ∀ i, i < dl.pv.pe_total → (entry dl i).lv_num ≠ 0 →
      lv_by_number ex_vg (entry dl i).lv_num ≠ none) ∧
    last_write (all_writes ex_find_pv lv_by_number ex_vg [ex_rec_twice]) 0 0 =
      some ⟨0, 0, ⟨some 0, 1⟩⟩ ∧
    ∃ vg2, _import_extents ex_find_pv lv_by_number ex_vg [ex_rec_twice] = some vg2 ∧
      ∀ k le, map_at vg2 k le =
        match last_write (all_writes ex_find_pv lv_by_number ex_vg [ex_rec_twice]) k le with
        | some w => (map_at ex_vg k le).map (fun _ => w.x)
        | none => map_at ex_vg k le := by
  have hres : ∀ dl ∈ [ex_rec_twice], ∀ i, i < dl.pv.pe_total → (entry dl i).lv_num ≠ 0 →
      lv_by_number ex_vg (entry dl i).lv_num ≠ none := by
    intro dl hdl i hi _
    rw [List.mem_singleton] at hdl
    subst hdl
    have hi2 : i < 2 := hi
    interval_cases i <;> decide
  exact ⟨hres, by decide,
    import_extents_last_store_wins ex_find_pv lv_by_number (pv_by_name_blind _)
      lv_by_number_blind ex_vg [ex_rec_twice] hres⟩

/-- Claim C7: `_import_extents` fails if and only if some entry at an index
below `pe_total` of its record has an LV number that is not zero and resolves
to no logical volume of the group; in particular a list whose entries are all
free is accepted and leaves the volume group as it was.  The lookup of LV
numbers is taken not to read the maps. -/
theorem import_extents_fails_iff_dangling (fp : volume_group → String → Option Nat)
    (fl : volume_group → Nat → Option Nat) (hfl : map_blind fl)
    (vg : volume_group) (pvs : List disk_list) :
    (_import_extents fp fl vg pvs = none ↔
      ∃ dl ∈ pvs, ∃ i, i < dl.pv.pe_total ∧ (entry dl i).lv_num ≠ 0 ∧
        fl vg (entry dl i).lv_num = none) ∧
    ((∀ dl ∈ pvs, ∀ i, i < dl.pv.pe_total → (entry dl i).lv_num = 0) →
      _import_extents fp fl vg pvs = some vg) := by
  refine ⟨import_extents_none_iff fp fl hfl pvs vg, ?_⟩
  intro hfree
  induction pvs with
  | nil => rfl
  | cons dl rest ih =>
    have hin : ∀ (is : List Nat), (∀ i ∈ is, i < dl.pv.pe_total) →
        import_pes fl (fp vg dl.pv.pv_name) dl is vg = some vg := by
      intro is
      induction is with
      | nil => intro _; rfl
      | cons i more ih2 =>
        intro hlt
        have h0 : (entry dl i).lv_num = 0 :=
          hfree dl (List.mem_cons_self _ _) i (hlt i (List.mem_cons_self _ _))
        unfold import_pes
        simp only [h0, ne_eq, not_true_eq_false, ↓reduceIte]
        exact ih2 (fun j hj => hlt j (List.mem_cons_of_mem _ hj))
    unfold _import_extents
    rw [hin (List.range dl.pv.pe_total) (fun i hi => List.mem_range.mp hi)]
    exact ih (fun d hd => hfree d (List.mem_cons_of_mem _ hd))

/-- An entry that claims LV number 7, where the group has one logical volume,
makes `_import_extents` fail. -/
theorem import_extents_fails_iff_dangling_witness :
    map_blind lv_by_number ∧ entry ex_rec_dangling 0 = ⟨7, 0⟩ ∧
      lv_by_number ex_vg 7 = none ∧
      _import_extents ex_find_pv lv_by_number ex_vg [ex_rec_a, ex_rec_dangling] = none :=
  ⟨lv_by_number_blind, by decide, by decide,
    (import_extents_fails_iff_dangling ex_find_pv lv_by_number lv_by_number_blind ex_vg
      [ex_rec_a, ex_rec_dangling]).1.mpr
      ⟨ex_rec_dangling, by simp, 0, by decide, by decide, by decide⟩⟩

/-- Claim C8 (fails on the code): two records that each carry the descriptor
of `data`, imported into a volume group without logical volumes, leave the
volume group without logical volumes: `_add_lv` links what it builds nowhere.
All six requests the pool could grant are used, three for each of the two
descriptors, as `_find_lv` never finds the name. -/
theorem import_lvs_links_nothing :
    ∃ vg mem2, _import_lvs (clean_pool 6) zero_vg [ex_rec_a, ex_rec_b] = some (vg, mem2) ∧
      ex_rec_a.lvs.map (fun d => d.lv_name) = ["data"] ∧
      ex_rec_b.lvs.map (fun d => d.lv_name) = ["data"] ∧
      vg.lvs = [] ∧ mem2.answers = [] :=
  ⟨_, _, rfl, by decide, by decide, rfl, rfl⟩

/-- Claim C9 (fails on the code): the logical volume `_add_lv` creates has a
zero identifier and the name, flags, size and extent count of the descriptor,
but its map is the block as the pool handed it out: with a pool whose memory
was used before, slot 0 holds a stale pair, not the unresolved value. -/
theorem add_lv_map_not_cleared :
    ∃ lv mem2, _add_lv (used_pool 3) zero_vg ex_data = some (lv, mem2) ∧
      lv.id = List.replicate ID_LEN 0 ∧ lv.name = "data" ∧ lv.access = ex_data.lv_access ∧
      lv.status = ex_data.lv_status ∧ lv.opened = ex_data.lv_open ∧
      lv.size = ex_data.lv_size ∧ lv.le_count = 12 ∧
      lv.map 0 = ⟨some 3, 7⟩ ∧ (lv.map 0).pv ≠ none :=
  ⟨_, _, rfl, rfl, rfl, rfl, rfl, rfl, rfl, rfl, rfl, by decide⟩

/-- Claim C10 (as stated, fails on the code): a descriptor with no logical
extents is accepted by `_add_lv`, and a record list in which it introduces a
new name is accepted by `_import_lvs`. -/
theorem add_lv_accepts_zero_count :
    ex_empty_lvd.lv_allocated_lv = 0 ∧
      (_add_lv (clean_pool 3) zero_vg ex_empty_lvd).isSome = true ∧
      (_import_lvs (clean_pool 3) zero_vg [ex_rec_empty_lv]).isSome = true :=
  ⟨rfl, rfl, rfl⟩

/-- Claim C10, amended: `_add_lv` does not look at the extent count.  On a
descriptor whose count is zero it succeeds exactly when the pool grants its
three requests, and the logical volume it creates has `le_count` zero; and
`_import_lvs` succeeds on every record list holding such a descriptor when
the pool grants three requests for each descriptor of the list. -/
theorem add_lv_zero_count (lvd : lv_disk) (h0 : lvd.lv_allocated_lv = 0) (mem : pool)
    (vg : volume_group) :
    ((_add_lv mem vg lvd).isSome ↔ grants mem 3) ∧
    (∀ lv mem2, _add_lv mem vg lvd = some (lv, mem2) → lv.le_count = 0) ∧
    (∀ pvs : List disk_list, (∃ dl ∈ pvs, lvd ∈ dl.lvs) →
      grants mem (3 * (pvs.map (fun dl => dl.lvs.length)).sum) →
      (_import_lvs mem vg pvs).isSome) := by
  refine ⟨add_lv_isSome_iff mem vg lvd, ?_, ?_⟩
  · intro lv mem2 h
    obtain ⟨hlv, _⟩ := add_lv_some mem vg lvd lv mem2 h
    rw [hlv]
    exact h0
  · intro pvs _ hg
    obtain ⟨mem2, h, _⟩ := import_lvs_of_grants pvs mem vg 0 (by simpa using hg)
    simp [h]

/-- The descriptor without logical extents and a pool that grants three
requests. -/
theorem add_lv_zero_count_witness :
    ex_empty_lvd.lv_allocated_lv = 0 ∧
    ((_add_lv (clean_pool 3) zero_vg ex_empty_lvd).isSome ↔ grants (clean_pool 3) 3) ∧
    (∀ lv mem2, _add_lv (clean_pool 3) zero_vg ex_empty_lvd = some (lv, mem2) →
      lv.le_count = 0) ∧
    (∀ pvs : List disk_list, (∃ dl ∈ pvs, ex_empty_lvd ∈ dl.lvs) →
      grants (clean_pool 3) (3 * (pvs.map (fun dl => dl.lvs.length)).sum) →
      (_import_lvs (clean_pool 3) zero_vg pvs).isSome) :=
  ⟨rfl, add_lv_zero_count ex_empty_lvd rfl (clean_pool 3) zero_vg⟩

/-! ### `_import_pvs` (lemmas for the claims on physical volumes) -/

theorem import_pv_some (mem mem2 : pool) (vg vg2 : volume_group) (dl : disk_list)
    (h : import_pv mem vg dl = some (vg2, mem2)) :
    vg2 = { vg with pvs := pv_of_record mem.stale dl :: vg.pvs, pv_count := vg.pv_count + 1 } ∧
    mem.answers = true :: true :: mem2.answers ∧ mem2.stale = mem.stale := by
  rcases mem with ⟨ans, sp, st⟩
  rcases ans with _ | ⟨b1, _ | ⟨b2, rest⟩⟩ <;>
    first
    | (cases b1 <;> cases b2 <;> simp [import_pv, pool_alloc, pool_strdup] at h <;>
        (obtain ⟨h1, h2⟩ := h; subst h1; subst h2; simp [pv_of_record]))
    | (cases b1 <;> simp [import_pv, pool_alloc, pool_strdup] at h)
    | simp [import_pv, pool_alloc, pool_strdup] at h

theorem import_pv_isSome_iff (mem : pool) (vg : volume_group) (dl : disk_list) :
    (import_pv mem vg dl).isSome ↔ grants mem 2 := by
  rcases mem with ⟨ans, sp, st⟩
  rcases ans with _ | ⟨b1, _ | ⟨b2, rest⟩⟩ <;>
    first
    | (cases b1 <;> cases b2 <;>
        simp [import_pv, pool_alloc, pool_strdup, grants, List.replicate])
    | (cases b1 <;> simp [import_pv, pool_alloc, pool_strdup, grants, List.replicate])
    | simp [import_pv, pool_alloc, pool_strdup, grants, List.replicate]

/-- What the loop of `_import_pvs` leaves: the new physical volumes in front
of the old ones, last record first, and the counter raised by their number. -/
theorem import_pvs_loop_some (pvs : List disk_list) (mem mem2 : pool) (vg vg2 : volume_group)
    (h : import_pvs_loop mem vg pvs = some (vg2, mem2)) :
    vg2 = { vg with pvs := (pvs.map (pv_of_record mem.stale)).reverse ++ vg.pvs,
                    pv_count := vg.pv_count + pvs.length } := by
  induction pvs generalizing mem vg with
  | nil =>
    simp only [import_pvs_loop, Option.some.injEq, Prod.mk.injEq] at h
    rw [← h.1]
    simp
  | cons dl rest ih =>
    unfold import_pvs_loop at h
    cases h1 : import_pv mem vg dl with
    | none => simp [h1] at h
    | some p =>
      obtain ⟨vg1, mem1⟩ := p
      simp only [h1] at h
      obtain ⟨e1, _, hst⟩ := import_pv_some mem mem1 vg vg1 dl h1
      have e2 := ih mem1 vg1 h
      rw [e2, e1, hst]
      simp [Nat.add_assoc, Nat.add_comm 1]

theorem import_pvs_loop_isSome_iff (pvs : List disk_list) (mem : pool) (vg : volume_group) :
    (import_pvs_loop mem vg pvs).isSome ↔ grants mem (2 * pvs.length) := by
  induction pvs generalizing mem vg with
  | nil => simp [import_pvs_loop, grants]
  | cons dl rest ih =>
    unfold import_pvs_loop
    cases h1 : import_pv mem vg dl with
    | none =>
      have hno : ¬ grants mem 2 := by
        intro hg
        have := (import_pv_isSome_iff mem vg dl).mpr hg
        simp [h1] at this
      simp only [Option.isSome_none, Bool.false_eq_true, false_iff]
      intro hg
      exact hno (grants_mono mem 2 _ (by simp only [List.length_cons]; omega) hg)
    | some p =>
      obtain ⟨vg1, mem1⟩ := p
      obtain ⟨_, ha, _⟩ := import_pv_some mem mem1 vg vg1 dl h1
      simp only [ih mem1 vg1]
      have e : 2 * (dl :: rest).length = 2 * rest.length + 2 := by
        simp only [List.length_cons]; omega
      have r : List.replicate (2 * rest.length + 2) true =
          true :: true :: List.replicate (2 * rest.length) true := rfl
      unfold grants
      rw [ha, e, r]
      simp

/-! ### `_import_vg` (lemmas for the claims on the counters) -/

theorem import_vg_loop_keeps (first : vg_disk) (vg vg2 : volume_group) (pvs : List disk_list)
    (h : import_vg_loop (some first) vg pvs = some vg2) : vg2 = vg := by
  induction pvs with
  | nil => simpa [import_vg_loop] using h.symm
  | cons dl rest ih =>
    unfold import_vg_loop at h
    by_cases hd : first = dl.vg
    · simp only [ne_eq, hd, not_true_eq_false, ↓reduceIte] at h
      exact ih (hd ▸ h)
    · simp [hd] at h

/-- A successful `_import_vg` on a list that is not empty has copied the
fields of the first descriptor, and nothing else. -/
theorem import_vg_some (vg vg2 : volume_group) (pvs : List disk_list) (h : pvs ≠ [])
    (hs : _import_vg vg pvs = some vg2) : vg2 = fill_vg vg (pvs.head h).vg := by
  cases pvs with
  | nil => exact absurd rfl h
  | cons dl rest =>
    simp only [_import_vg, import_vg_loop] at hs
    simpa using import_vg_loop_keeps dl.vg _ vg2 rest hs

/-- What `_build_vg` returns is the zeroed volume group with the fields of the
first VG descriptor copied in, the physical volumes of the records and their
number; without records it is the zeroed volume group. -/
theorem build_vg_some (mem mem2 : pool) (pvs : List disk_list) (vg : volume_group)
    (hb : _build_vg mem pvs = some (vg, mem2)) :
    ∃ vg1, _import_vg zero_vg pvs = some vg1 ∧
      vg = { vg1 with pvs := (pvs.map (pv_of_record mem.stale)).reverse ++ vg1.pvs,
                      pv_count := pvs.length } := by
  unfold _build_vg at hb
  cases h0 : pool_alloc mem with
  | none => simp [h0] at hb
  | some mem1 =>
    simp only [h0] at hb
    have hst : mem1.stale = mem.stale := by
      unfold pool_alloc at h0
      split at h0
      · simp only [Option.some.injEq] at h0; rw [← h0]
      · exact absurd h0 (by simp)
    cases h1 : _import_vg zero_vg pvs with
    | none => simp [h1] at hb
    | some vg1 =>
      simp only [h1] at hb
      cases h2 : _import_pvs mem1 vg1 pvs with
      | none => simp [h2] at hb
      | some p2 =>
        obtain ⟨vg2, m2⟩ := p2
        simp only [h2] at hb
        cases h3 : _import_lvs m2 vg2 pvs with
        | none => simp [h3] at hb
        | some p3 =>
          obtain ⟨vg3, m3⟩ := p3
          simp only [h3, Option.some.injEq, Prod.mk.injEq] at hb
          have e3 := import_lvs_vg pvs m2 m3 vg2 vg3 h3
          have e2 := import_pvs_loop_some pvs mem1 m2 _ vg2 h2
          refine ⟨vg1, rfl, ?_⟩
          rw [← hb.1, e3, e2, hst]
          simp

/-! ### `_vg_read` -/

/-- Once `read_pvs_in_vg` has succeeded, `_vg_read` destroys the scratch pool
whether or not a volume group is built: the pools alive are those from before
the call. -/
theorem vg_read_live_after_read (read_pvs_in_vg : String → Nat → Option (List disk_list))
    (ps : pools) (io : io_space) (vg_name : String) (pvs : List disk_list)
    (hr : read_pvs_in_vg vg_name io.filter = some pvs) :
    (_vg_read read_pvs_in_vg true ps io vg_name).2.live = ps.live := by
  unfold _vg_read
  simp only [pool_create, ↓reduceIte, hr]
  cases _build_vg io.mem pvs with
  | none => simp [pool_destroy]
  | some p => simp [pool_destroy]

/-- Every volume group that `_vg_read` returns has a null name. -/
theorem vg_read_name (read_pvs_in_vg : String → Nat → Option (List disk_list))
    (create_ok : Bool) (ps : pools) (io : io_space) (vg_name : String) (vg : volume_group)
    (h : (_vg_read read_pvs_in_vg create_ok ps io vg_name).1 = some vg) : vg.name = none := by
  unfold _vg_read at h
  cases hc : pool_create ps create_ok with
  | none => simp [hc] at h
  | some q =>
    obtain ⟨m, ps1⟩ := q
    simp only [hc] at h
    cases hr : read_pvs_in_vg vg_name io.filter with
    | none => simp [hr] at h
    | some pvs =>
      simp only [hr] at h
      cases hb : _build_vg io.mem pvs with
      | none => simp [hb] at h
      | some p =>
        obtain ⟨vg0, m2⟩ := p
        simp only [hb, Option.some.injEq] at h
        subst h
        obtain ⟨vg1, h1, e⟩ := build_vg_some io.mem m2 pvs vg0 hb
        rw [e]
        cases pvs with
        | nil =>
          simp only [_import_vg, import_vg_loop, Option.some.injEq] at h1
          rw [← h1]; rfl
        | cons dl rest =>
          rw [import_vg_some zero_vg vg1 (dl :: rest) (by simp) h1]
          rfl

/-! ## The claims on `_import_pvs`, the counters and `_vg_read` -/

/-- Claim C11: when `_import_pvs` succeeds, the physical volumes it has put in
front of those the volume group had are exactly one per record (the last
record first), each with the identifier, the VG name and the status of its
record, and `pv_count` is the number of records. -/
theorem import_pvs_one_per_record (mem mem2 : pool) (vg vg2 : volume_group)
    (pvs : List disk_list) (h : _import_pvs mem vg pvs = some (vg2, mem2)) :
    ∃ new, vg2.pvs = new ++ vg.pvs ∧
      new.reverse.map (fun pv => (pv.id, pv.vg_name, pv.status)) =
        pvs.map (fun dl => (dl.pv.pv_uuid.take ID_LEN, dl.pv.vg_name, dl.pv.pv_status)) ∧
      vg2.pv_count = pvs.length := by
  have e := import_pvs_loop_some pvs mem mem2 _ vg2 h
  refine ⟨(pvs.map (pv_of_record mem.stale)).reverse, ?_, ?_, ?_⟩
  · rw [e]
  · simp [pv_of_record]
  · rw [e]; simp

/-- The two records of the scenario give two physical volumes, `PV-B` in front
of `PV-A`, and the count 2. -/
theorem import_pvs_one_per_record_witness :
    ∃ vg2 mem2, _import_pvs (clean_pool 4) zero_vg [ex_rec_a, ex_rec_b] = some (vg2, mem2) ∧
      ∃ new, vg2.pvs = new ++ zero_vg.pvs ∧
        new.reverse.map (fun pv => (pv.id, pv.vg_name, pv.status)) =
          [ex_rec_a, ex_rec_b].map
            (fun dl => (dl.pv.pv_uuid.take ID_LEN, dl.pv.vg_name, dl.pv.pv_status)) ∧
        vg2.pv_count = [ex_rec_a, ex_rec_b].length :=
  ⟨_, _, rfl, import_pvs_one_per_record (clean_pool 4) _ zero_vg _ [ex_rec_a, ex_rec_b] rfl⟩

/-- Claim C12 (as stated, fails on the code): two records with the same PV
identifier are both imported. -/
theorem import_pvs_accepts_same_uuid_example :
    ∃ vg2 mem2,
      _import_pvs (clean_pool 4) zero_vg [ex_rec_a, ex_rec_b_same_uuid] = some (vg2, mem2) ∧
      ex_rec_a.pv.pv_uuid = ex_rec_b_same_uuid.pv.pv_uuid ∧
      vg2.pvs.map (fun pv => pv.id) = [[2], [2]] ∧ vg2.pv_count = 2 :=
  ⟨_, _, rfl, by decide, by decide, rfl⟩

/-- Claim C12, amended: physical volumes are not compared.  On a record list
in which two records carry the same PV identifier, `_import_pvs` succeeds
exactly when the pool grants its two requests per record, as on any other
list, and then both records have their physical volume among those imported,
the two with the same identifier. -/
theorem import_pvs_accepts_same_uuid (mem : pool) (vg : volume_group) (pvs : List disk_list)
    (n m : Nat) (a b : disk_list) (hn : pvs[n]? = some a) (hm : pvs[m]? = some b)
    (hu : a.pv.pv_uuid = b.pv.pv_uuid) :
    ((_import_pvs mem vg pvs).isSome ↔ grants mem (2 * pvs.length)) ∧
    ∀ vg2 mem2, _import_pvs mem vg pvs = some (vg2, mem2) →
      ∃ pa pb, (vg2.pvs.take pvs.length).reverse[n]? = some pa ∧
        (vg2.pvs.take pvs.length).reverse[m]? = some pb ∧
        pa.id = a.pv.pv_uuid.take ID_LEN ∧ pb.id = pa.id := by
  refine ⟨import_pvs_loop_isSome_iff pvs mem _, ?_⟩
  intro vg2 mem2 h
  have e := import_pvs_loop_some pvs mem mem2 _ vg2 h
  have hl : (vg2.pvs.take pvs.length).reverse = pvs.map (pv_of_record mem.stale) := by
    rw [e]
    simp [List.take_append_eq_append_take]
  rw [hl]
  refine ⟨pv_of_record mem.stale a, pv_of_record mem.stale b, ?_, ?_, rfl, ?_⟩
  · simp [List.getElem?_map, hn]
  · simp [List.getElem?_map, hm]
  · simp [pv_of_record, hu]

/-- The record of `PV-B` with the identifier of `PV-A`, behind the record of
`PV-A`, and a pool that grants four requests: both are imported, with the
identifier 2. -/
theorem import_pvs_accepts_same_uuid_witness :
    ex_rec_a.pv.pv_uuid = ex_rec_b_same_uuid.pv.pv_uuid ∧
    ((_import_pvs (clean_pool 4) zero_vg [ex_rec_a, ex_rec_b_same_uuid]).isSome ↔
      grants (clean_pool 4) (2 * [ex_rec_a, ex_rec_b_same_uuid].length)) ∧
    ∀ vg2 mem2,
      _import_pvs (clean_pool 4) zero_vg [ex_rec_a, ex_rec_b_same_uuid] = some (vg2, mem2) →
      ∃ pa pb,
        (vg2.pvs.take [ex_rec_a, ex_rec_b_same_uuid].length).reverse[0]? = some pa ∧
        (vg2.pvs.take [ex_rec_a, ex_rec_b_same_uuid].length).reverse[1]? = some pb ∧
        pa.id = ex_rec_a.pv.pv_uuid.take ID_LEN ∧ pb.id = pa.id :=
  ⟨by decide,
    import_pvs_accepts_same_uuid (clean_pool 4) zero_vg [ex_rec_a, ex_rec_b_same_uuid] 0 1
      ex_rec_a ex_rec_b_same_uuid rfl rfl (by decide)⟩

/-- Claim C13 (as stated, fails on the code): a VG descriptor with 10 extents
of which 11 are allocated passes `_import_vg`; the difference wraps and the
free count is `2 ^ 32 - 1`, above the extent count 10. -/
theorem import_vg_free_count_wraps :
    ∃ vg2, _import_vg zero_vg [ex_rec_over] = some vg2 ∧ vg2.extent_count = 10 ∧
      vg2.free_count = 4294967295 ∧ ¬ vg2.free_count ≤ vg2.extent_count :=
  ⟨_, rfl, by decide, by decide, by decide⟩

/-- Claim C13, amended: after a successful `_import_vg` on a list that is not
empty, `extent_count` is `pe_total` of the first descriptor and `free_count`
is `pe_total - pe_allocated` in 32 bit arithmetic; so for 32 bit counters
`free_count <= extent_count` holds exactly when the first descriptor has
`pe_allocated <= pe_total`. -/
theorem import_vg_free_count (vg vg2 : volume_group) (pvs : List disk_list) (h : pvs ≠ [])
    (hs : _import_vg vg pvs = some vg2) (ht : (pvs.head h).vg.pe_total < 2 ^ 32)
    (ha : (pvs.head h).vg.pe_allocated < 2 ^ 32) :
    vg2.extent_count = (pvs.head h).vg.pe_total ∧
    vg2.free_count =
      ((pvs.head h).vg.pe_total + 2 ^ 32 - (pvs.head h).vg.pe_allocated) % 2 ^ 32 ∧
    (vg2.free_count ≤ vg2.extent_count ↔
      (pvs.head h).vg.pe_allocated ≤ (pvs.head h).vg.pe_total) := by
  rw [import_vg_some vg vg2 pvs h hs]
  refine ⟨rfl, rfl, ?_⟩
  simp only [fill_vg]
  have e : (2 : Nat) ^ 32 = 4294967296 := by norm_num
  rw [e] at ht ha ⊢
  omega

/-- The scenario: 20 extents, 12 allocated, so 8 free and `8 <= 20`. -/
theorem import_vg_free_count_witness :
    ∃ vg2, _import_vg zero_vg [ex_rec_a, ex_rec_b] = some vg2 ∧
      vg2.extent_count = 20 ∧ vg2.free_count = 8 ∧ vg2.free_count ≤ vg2.extent_count := by
  refine ⟨_, rfl, ?_⟩
  obtain ⟨h1, h2, h3⟩ := import_vg_free_count zero_vg _ [ex_rec_a, ex_rec_b] (by simp) rfl
    (by decide) (by decide)
  exact ⟨h1, h2, h3.mpr (by decide)⟩

/-- Claim C14 (as stated, fails on the code): with a VG descriptor that counts
25 extents on two PVs of 10 extents each, `_build_vg` succeeds and returns
`extent_count` 25, while the extent counts of its two physical volumes add up
to 20. -/
theorem build_vg_extent_count_unchecked :
    ∃ vg mem2, _build_vg (ten_pool 11) [ex_rec_a_25, ex_rec_b_25] = some (vg, mem2) ∧
      [ex_rec_a_25, ex_rec_b_25].map (fun dl => dl.pv.pe_count) = [10, 10] ∧
      vg.pvs.map (fun pv => pv.pe_count) = [10, 10] ∧
      vg.extent_count = 25 ∧ vg.extent_count ≠ (vg.pvs.map (fun pv => pv.pe_count)).sum :=
  ⟨_, _, rfl, by decide, by decide, by decide, by decide⟩

/-- Claim C14, amended: the volume group `_build_vg` returns on a list that is
not empty has the `extent_count` that the first record's VG descriptor gives
as `pe_total`, and the `free_count` that is `pe_total - pe_allocated` of that
descriptor in 32 bit arithmetic; the counts of the physical volumes play no
part. -/
theorem build_vg_extent_count (mem mem2 : pool) (pvs : List disk_list) (vg : volume_group)
    (h : pvs ≠ []) (hb : _build_vg mem pvs = some (vg, mem2)) :
    vg.extent_count = (pvs.head h).vg.pe_total ∧
    vg.free_count =
      ((pvs.head h).vg.pe_total + 2 ^ 32 - (pvs.head h).vg.pe_allocated) % 2 ^ 32 := by
  obtain ⟨vg1, h1, e⟩ := build_vg_some mem mem2 pvs vg hb
  rw [e, import_vg_some zero_vg vg1 pvs h h1]
  exact ⟨rfl, rfl⟩

/-- The scenario: two PVs of 10 extents, 12 extents owned; the VG descriptor
says 20 and 12, and the volume group built has `extent_count` 20 and
`free_count` 8. -/
theorem build_vg_extent_count_witness :
    ∃ vg mem2, _build_vg (clean_pool 11) [ex_rec_a, ex_rec_b] = some (vg, mem2) ∧
      vg.extent_count = 20 ∧ vg.free_count = 8 := by
  refine ⟨_, _, rfl, ?_⟩
  obtain ⟨h1, h2⟩ :=
    build_vg_extent_count (clean_pool 11) _ [ex_rec_a, ex_rec_b] _ (by simp) rfl
  exact ⟨h1, h2.trans (by decide)⟩

/-- Claim C17 (fails on the code): when `read_pvs_in_vg` fails, `_vg_read`
returns `NULL` with the scratch pool it created still alive: pool 7 has joined
the pools 5 and 2 that were alive before the call. -/
theorem vg_read_leaks_scratch_pool :
    ex_read_pvs "nosuchvg" ex_io.filter = none ∧
      (_vg_read ex_read_pvs true ex_pools ex_io "nosuchvg").1 = none ∧
      ex_pools.live = [5, 2] ∧
      (_vg_read ex_read_pvs true ex_pools ex_io "nosuchvg").2.live = [7, 5, 2] :=
  ⟨by decide, rfl, rfl, by decide⟩

/-- Claim C18 (fails on the code): the record of `PV-A` has `pv_size` 81920
and extent size 8192; the physical volume imported from it has `size` 81920
and `pe_size` 81920 as well, both read from `pv_size`. -/
theorem import_pvs_pe_size_from_pv_size :
    ∃ vg2 mem2, _import_pvs (clean_pool 2) zero_vg [ex_rec_a] = some (vg2, mem2) ∧
      ex_rec_a.pv.pv_size = 81920 ∧ ex_rec_a.pv.pe_size = 8192 ∧
      vg2.pvs.map (fun pv => (pv.size, pv.pe_size)) = [(81920, 81920)] :=
  ⟨_, _, rfl, by decide, by decide, by decide⟩

/-- Claim C19 (fails on the code): `_vg_read` asked for `myvg` returns a volume
group whose name is null. -/
theorem vg_read_returns_null_name :
    ∃ vg, (_vg_read ex_read_pvs true ex_pools ex_io "myvg").1 = some vg ∧ vg.name = none ∧
      vg.pv_count = 2 :=
  ⟨_, rfl, rfl, rfl⟩

end Format1

namespace Activate

open Format1

/-! ## Theorems on `activate.c` -/

theorem strchr_eq_none (s : List Char) (c : Char) : strchr s c = none ↔ c ∉ s := by
  induction s with
  | nil => simp [strchr]
  | cons x xs ih =>
    unfold strchr
    by_cases h : x = c
    · simp [h]
    · simp only [h, ↓reduceIte, ih, List.mem_cons, not_or]
      exact ⟨fun h2 => ⟨fun h3 => h h3.symm, h2⟩, fun h2 => h2.2⟩

/-- The string splits at the first `c`: what is cut off in front, `c`, and
what stands behind the place `strchr` points to. -/
theorem strchr_some (s : List Char) (c : Char) (t : List Char) (h : strchr s c = some t) :
    s = cut_at s c ++ c :: t.tail ∧ c ∉ cut_at s c := by
  induction s with
  | nil => simp [strchr] at h
  | cons x xs ih =>
    unfold strchr at h
    unfold cut_at
    by_cases hx : x = c
    · simp only [hx, ↓reduceIte, Option.some.injEq] at h
      subst h
      simp [hx]
    · simp only [hx, ↓reduceIte] at h
      obtain ⟨h1, h2⟩ := ih h
      simp only [hx, ↓reduceIte, List.cons_append, List.mem_cons, not_or]
      exact ⟨by rw [← h1], fun h3 => hx h3.symm, h2⟩

theorem pool_strdup_of_grants (mem : pool) (s : String) (hg : grants mem 1) :
    ∃ mem2, pool_strdup mem s = some (s, mem2) := by
  obtain ⟨rest, hr⟩ := hg
  have : mem.answers = true :: rest := hr
  simp [pool_strdup, pool_alloc, this]

/-- What `_lv_from_lvid` does with an identifier that has a `/`, when the pool
grants the copy. -/
theorem lv_from_lvid_slash (cmd : cmd_context)
    (find : volume_group → String → Option logical_volume) (lvid : String)
    (hs : '/' ∈ lvid.data) (hg : grants cmd.mem 1) :
    _lv_from_lvid cmd find lvid =
      some (match cmd.vg_read (lvid_vgname lvid) with
        | none => (none, [event.vg_read (lvid_vgname lvid)])
        | some vg =>
          if vg.status &&& EXPORTED_VG ≠ 0 then (none, [event.vg_read (lvid_vgname lvid)])
          else (find vg (lvid_lv_uuid lvid),
            [event.vg_read (lvid_vgname lvid), event.find_lv (lvid_lv_uuid lvid)])) := by
  obtain ⟨mem2, hd⟩ := pool_strdup_of_grants cmd.mem lvid hg
  cases hc : strchr lvid.data '/' with
  | none => exact absurd hs ((strchr_eq_none _ _).mp hc)
  | some slash =>
    unfold _lv_from_lvid
    simp only [hc, hd, lvid_vgname, lvid_lv_uuid, Option.getD_some]
    cases cmd.vg_read (String.mk (cut_at lvid.data '/')) with
    | none => rfl
    | some vg =>
      by_cases he : vg.status &&& EXPORTED_VG = 0
      · simp only [he, ne_eq, not_true_eq_false, ↓reduceIte]
        cases find vg (String.mk slash.tail) <;> rfl
      · simp only [ne_eq, he, not_false_eq_true, ↓reduceIte]

theorem lvid_split (lvid : String) (hs : '/' ∈ lvid.data) :
    lvid_vgname lvid ++ "/" ++ lvid_lv_uuid lvid = lvid ∧ '/' ∉ (lvid_vgname lvid).data := by
  cases hc : strchr lvid.data '/' with
  | none => exact absurd hs ((strchr_eq_none _ _).mp hc)
  | some slash =>
    obtain ⟨h1, h2⟩ := strchr_some lvid.data '/' slash hc
    refine ⟨?_, h2⟩
    apply String.ext
    rw [String.data_append, String.data_append]
    simp only [lvid_vgname, lvid_lv_uuid, hc, Option.getD_some]
    rw [List.append_assoc]
    exact h1.symm

/-- The function `lv_suspend_if_active` calls `lv_suspend` on the logical
volume found exactly when `lv_active` is not 0. -/
theorem lv_suspend_if_active_calls (cmd : cmd_context)
    (find : volume_group → String → Option logical_volume) (dev : dev_env) (lvid : String)
    (lv : logical_volume) (log : List event)
    (h : _lv_from_lvid cmd find lvid = some (some lv, log)) :
    lv_suspend_if_active cmd find dev lvid =
      some (1, if lv_active dev lv ≠ 0 then log ++ [event.lv_suspend lv] else log) := by
  unfold lv_suspend_if_active
  simp only [h]
  by_cases ha : lv_active dev lv = 0 <;> simp [ha]

/-! ## The claims on `activate.c` -/

/-- When the pool grants the copy of an identifier with a `/`, `_lv_from_lvid`
reads the volume group named by the part in front of
the first `/`, and, when that volume group is there and not exported, looks up
the part behind the first `/` in it and returns what the lookup gives.  The
two parts joined by `/` are the identifier, and the first has no `/`. -/
theorem lv_from_lvid_parses (cmd : cmd_context)
    (find : volume_group → String → Option logical_volume) (lvid : String)
    (hs : '/' ∈ lvid.data) (hg : grants cmd.mem 1) :
    lvid_vgname lvid ++ "/" ++ lvid_lv_uuid lvid = lvid ∧ '/' ∉ (lvid_vgname lvid).data ∧
    ∃ r, _lv_from_lvid cmd find lvid = some r ∧
      r.2.head? = some (event.vg_read (lvid_vgname lvid)) ∧
      (∀ e ∈ r.2, e = event.vg_read (lvid_vgname lvid) ∨
        e = event.find_lv (lvid_lv_uuid lvid)) ∧
      (∀ vg, cmd.vg_read (lvid_vgname lvid) = some vg → vg.status &&& EXPORTED_VG = 0 →
        r = (find vg (lvid_lv_uuid lvid),
          [event.vg_read (lvid_vgname lvid), event.find_lv (lvid_lv_uuid lvid)])) := by
  obtain ⟨h1, h2⟩ := lvid_split lvid hs
  refine ⟨h1, h2, _, lv_from_lvid_slash cmd find lvid hs hg, ?_⟩
  cases hv : cmd.vg_read (lvid_vgname lvid) with
  | none => simp
  | some vg =>
    by_cases he : vg.status &&& EXPORTED_VG = 0
    · simp [he]
    · simp [he]

/-- The identifier `myvg/abc123`: the volume group read is `myvg`, the
identifier looked up is `abc123`. -/
theorem lv_from_lvid_parses_witness :
    lvid_vgname "myvg/abc123" = "myvg" ∧ lvid_lv_uuid "myvg/abc123" = "abc123" ∧
    lvid_vgname "myvg/abc123" ++ "/" ++ lvid_lv_uuid "myvg/abc123" = "myvg/abc123" ∧
    _lv_from_lvid ex_cmd ex_find_lv "myvg/abc123" =
      some (some ex_lv_data, [event.vg_read "myvg", event.find_lv "abc123"]) :=
  ⟨by decide, by decide,
    (lv_from_lvid_parses ex_cmd ex_find_lv "myvg/abc123" (by decide) ⟨[], rfl⟩).1, rfl⟩

/-- An identifier without `/` makes `_lv_from_lvid` return `NULL` without any
call of the reader.  Otherwise, when the pool grants the copy of the
identifier, it returns a logical volume if and only if the identifier has a
`/`, the reader returns a volume group for the name in front of it, that
volume group has the bit `EXPORTED_VG` clear in its status, and the lookup of
the part behind the `/` finds a logical volume in it; it returns `NULL` in
every other case. -/
theorem lv_from_lvid_cases (cmd : cmd_context)
    (find : volume_group → String → Option logical_volume) (lvid : String) :
    ('/' ∉ lvid.data → _lv_from_lvid cmd find lvid = some (none, [])) ∧
    (grants cmd.mem 1 → ∃ r, _lv_from_lvid cmd find lvid = some r ∧
      (r.1.isSome ↔ '/' ∈ lvid.data ∧ ∃ vg, cmd.vg_read (lvid_vgname lvid) = some vg ∧
        vg.status &&& EXPORTED_VG = 0 ∧ (find vg (lvid_lv_uuid lvid)).isSome) ∧
      (r.1 = none ∨ ∃ vg, cmd.vg_read (lvid_vgname lvid) = some vg ∧
        r.1 = find vg (lvid_lv_uuid lvid))) := by
  constructor
  · intro hs
    have hc := (strchr_eq_none lvid.data '/').mpr hs
    simp [_lv_from_lvid, hc]
  · intro hg
    by_cases hs : '/' ∈ lvid.data
    · refine ⟨_, lv_from_lvid_slash cmd find lvid hs hg, ?_⟩
      cases hv : cmd.vg_read (lvid_vgname lvid) with
      | none => simp
      | some vg =>
        by_cases he : vg.status &&& EXPORTED_VG = 0
        · simp [he, hs]
        · simp [he]
    · have hc := (strchr_eq_none lvid.data '/').mpr hs
      exact ⟨(none, []), by simp [_lv_from_lvid, hc], by simp [hs]⟩

/-- The four failure cases and the success, on the example reader: no `/`, a
volume group that is not there, an exported one, an identifier that is not
there, and `myvg/abc123`. -/
theorem lv_from_lvid_cases_witness :
    _lv_from_lvid ex_cmd ex_find_lv "novgslash" = some (none, []) ∧
    _lv_from_lvid ex_cmd ex_find_lv "other/abc123" = some (none, [event.vg_read "other"]) ∧
    _lv_from_lvid ex_cmd ex_find_lv "gone/abc123" = some (none, [event.vg_read "gone"]) ∧
    _lv_from_lvid ex_cmd ex_find_lv "myvg/zzz" =
      some (none, [event.vg_read "myvg", event.find_lv "zzz"]) ∧
    ∃ r, _lv_from_lvid ex_cmd ex_find_lv "myvg/abc123" = some r ∧ r.1.isSome = true :=
  ⟨(lv_from_lvid_cases ex_cmd ex_find_lv "novgslash").1 (by decide), rfl, rfl, rfl,
    by
      obtain ⟨r, h1, h2, _⟩ :=
        (lv_from_lvid_cases ex_cmd ex_find_lv "myvg/abc123").2 ⟨[], rfl⟩
      exact ⟨r, h1, h2.mpr ⟨by decide, ex_vg, rfl, by decide, rfl⟩⟩⟩

/-- Claim C15 (fails on the code): the identifier `myvg/abc123` has a `/`, but
with a pool that refuses the copy of it `_lv_from_lvid` reads no volume group
and looks nothing up: `vgname` is null and `*strchr(vgname, '/') = 0` goes
through it.  With a pool that grants the copy, the volume group read is `myvg`
and the identifier looked up is `abc123`. -/
theorem lv_from_lvid_unchecked_copy :
    '/' ∈ "myvg/abc123".data ∧
    pool_strdup ex_cmd_no_mem.mem "myvg/abc123" = none ∧
    _lv_from_lvid ex_cmd_no_mem ex_find_lv "myvg/abc123" = none ∧
    _lv_from_lvid ex_cmd ex_find_lv "myvg/abc123" =
      some (some ex_lv_data, [event.vg_read "myvg", event.find_lv "abc123"]) :=
  ⟨by decide, rfl, rfl, rfl⟩

/-- Claim C16 (fails on the code): for `myvg/abc123` the identifier has a `/`,
the reader returns `myvg`, `myvg` is not exported and the lookup of `abc123`
finds `data`; yet with a pool that refuses the copy of the identifier
`_lv_from_lvid` returns neither that logical volume nor `NULL`: it stores
through the null pointer `vgname`. -/
theorem lv_from_lvid_no_null_on_refused_copy :
    '/' ∈ "myvg/abc123".data ∧
    ex_cmd_no_mem.vg_read (lvid_vgname "myvg/abc123") = some ex_vg ∧
    ex_vg.status &&& EXPORTED_VG = 0 ∧
    (ex_find_lv ex_vg (lvid_lv_uuid "myvg/abc123")).isSome = true ∧
    _lv_from_lvid ex_cmd_no_mem ex_find_lv "myvg/abc123" = none ∧
    _lv_from_lvid ex_cmd_no_mem ex_find_lv "myvg/abc123" ≠ some (none, []) ∧
    _lv_from_lvid ex_cmd_no_mem ex_find_lv "novgslash" = some (none, []) :=
  ⟨by decide, rfl, by decide, rfl, rfl, by simp [show
      _lv_from_lvid ex_cmd_no_mem ex_find_lv "myvg/abc123" = none from rfl], rfl⟩

/-- Claim C20 (fails on the code): when the state query fails, `lv_active` is
-1, and `lv_suspend_if_active` calls `lv_suspend`, `lv_resume_if_active` calls
`lv_reactivate`, on the logical volume found; the test is `lv_active(lv)`, not
`lv_active(lv) == 1`.  With an inactive logical volume neither call is made. -/
theorem if_active_acts_on_failed_query :
    lv_active ex_dev_broken ex_lv_data = -1 ∧
    lv_suspend_if_active ex_cmd ex_find_lv ex_dev_broken "myvg/abc123" =
      some (1, [event.vg_read "myvg", event.find_lv "abc123", event.lv_suspend ex_lv_data]) ∧
    lv_resume_if_active ex_cmd ex_find_lv ex_dev_broken "myvg/abc123" =
      some (1, [event.vg_read "myvg", event.find_lv "abc123",
        event.lv_reactivate ex_lv_data]) ∧
    lv_active ex_dev_inactive ex_lv_data = 0 ∧
    lv_suspend_if_active ex_cmd ex_find_lv ex_dev_inactive "myvg/abc123" =
      some (1, [event.vg_read "myvg", event.find_lv "abc123"]) :=
  ⟨rfl, rfl, rfl, rfl, rfl⟩

/-! ## `lvs_in_vg_opened` -/

theorem lvs_opened_loop_eq (dev : dev_env) (lvs : List logical_volume) (count : Int) :
    lvs_opened_loop dev lvs count =
      count + ((lvs.filter (fun lv => decide (lv_open_count dev lv = 1))).length : Int) := by
  induction lvs generalizing count with
  | nil => simp [lvs_opened_loop]
  | cons lv rest ih =>
    unfold lvs_opened_loop
    rw [ih]
    by_cases h : lv_open_count dev lv = 1
    · simp [h, List.filter_cons]; omega
    · simp [h, List.filter_cons]

/-- What `lvs_in_vg_opened` counts: the logical volumes whose open count is
exactly 1. -/
theorem lvs_in_vg_opened_eq (dev : dev_env) (vg : volume_group) :
    lvs_in_vg_opened dev vg =
      ((vg.lvs.filter (fun lv => decide (lv_open_count dev lv = 1))).length : Int) := by
  unfold lvs_in_vg_opened
  rw [lvs_opened_loop_eq]
  simp

/-- Claim C21 (fails on the code): a volume group whose only logical volume is
opened twice has no opened logical volume according to `lvs_in_vg_opened`,
which compares the open count with 1; opened once, the same logical volume is
counted, and with a failed query (-1) it is not. -/
theorem lvs_in_vg_opened_misses_open_twice :
    ex_vg.lvs.map (fun lv => lv_open_count ex_dev_open_twice lv) = [2] ∧
    lvs_in_vg_opened ex_dev_open_twice ex_vg = 0 ∧
    ex_vg.lvs.map (fun lv => lv_open_count ex_dev_open_once lv) = [1] ∧
    lvs_in_vg_opened ex_dev_open_once ex_vg = 1 ∧
    ex_vg.lvs.map (fun lv => lv_open_count ex_dev_broken lv) = [-1] ∧
    lvs_in_vg_opened ex_dev_broken ex_vg = 0 :=
  ⟨rfl, rfl, rfl, rfl, rfl, rfl⟩

end Activate
